import Mathlib

/-!
Verification of the Flipkart product scraping and catalog pipeline.

Strings from the JavaScript/TypeScript source are modelled as `List Char`;
JS numbers are modelled as exact integers (`ℕ`, `ℤ`) and exact rationals
(`ℚ`) where fractional arithmetic occurs (`Math.round(x * 0.85)` and
`parseFloat`).  Nullable JS values are modelled as `Option`, and the JS
truthiness conventions (`null`/`undefined`/`""`/`0` are falsy) are made
explicit in dedicated helper functions.
-/

namespace FlipkartPanel

/-- Characters treated as whitespace by the JS `\s` class and `String.trim`
(space, tab, line feed, carriage return, vertical tab, form feed,
no-break space, line/paragraph separator, BOM). -/
def isWs (c : Char) : Bool :=
  c = ' ' || c = '\t' || c = '\n' || c = '\r' ||
  c = Char.ofNat 11 || c = Char.ofNat 12 || c = Char.ofNat 160 ||
  c = Char.ofNat 8232 || c = Char.ofNat 8233 || c = Char.ofNat 65279

/-- JS `String.prototype.trim`: drop whitespace from both ends. -/
def jsTrim (l : List Char) : List Char :=
  ((l.dropWhile isWs).reverse.dropWhile isWs).reverse

/-- Value of a run of decimal digit characters, as `parseInt` reads it. -/
def natOfDigits (l : List Char) : ℕ :=
  l.foldl (fun n c => 10 * n + (c.toNat - 48)) 0

/-- Leftmost maximal run of decimal digits in a string: the first match of
the regex `\d+`. -/
def firstDigitRun : List Char → Option (List Char)
  | [] => none
  | c :: cs =>
    if c.isDigit then some (c :: cs.takeWhile Char.isDigit)
    else firstDigitRun cs

/-- The "Not found" sentinel used throughout the extractor. -/
def notFound : List Char := "Not found".data

/-- Characters removed by `parsePrice` before digit matching: the source
regex character class `[₹,\s]` (rupee sign, comma, whitespace). -/
def isNoise (c : Char) : Bool :=
  c = '₹' || c = ',' || isWs c

/-- Embeds `parsePrice` of `server.js`: falsy input or the "Not found"
sentinel give 0; otherwise the currency noise is removed, the first `\d+`
match is parsed and 0 is returned when no digit exists. -/
def parsePrice (s : List Char) : ℕ :=
  if s = [] ∨ s = notFound then 0
  else
    match firstDigitRun (s.filter (fun c => !(isNoise c))) with
    | some r => natOfDigits r
    | none => 0

/-- Modelled from the spec: "strip all non-digit characters except digits
themselves (treat currency symbols, commas, and whitespace as noise), take
the first maximal run of digits, parse as integer; return 0 if no digit
run exists or input is the \"Not found\" sentinel". -/
def parsePriceSpec (s : List Char) : ℕ :=
  if s = notFound then 0
  else
    match firstDigitRun (s.filter (fun c => !(isNoise c))) with
    | some r => natOfDigits r
    | none => 0

/-- Leftmost match of the regex `\d+\.?\d*` used by `parseRating`:
a maximal digit run, then an optional dot followed by a maximal
(possibly empty) digit run. -/
def firstDecimal : List Char → Option (List Char)
  | [] => none
  | c :: cs =>
    if c.isDigit then
      let d1 := c :: cs.takeWhile Char.isDigit
      some (match (c :: cs).drop d1.length with
            | '.' :: r2 => d1 ++ '.' :: r2.takeWhile Char.isDigit
            | _ => d1)
    else firstDecimal cs

/-- Value of a `parseFloat` on a `digits[.digits]` match, as an exact
rational. -/
def decValue (l : List Char) : ℚ :=
  let d1 := l.takeWhile Char.isDigit
  match l.drop d1.length with
  | '.' :: r2 => (natOfDigits d1 : ℚ) + (natOfDigits (r2.takeWhile Char.isDigit) : ℚ) / 10 ^ (r2.takeWhile Char.isDigit).length
  | _ => (natOfDigits d1 : ℚ)

/-- Embeds `parseRating` of `server.js`: falsy input or the sentinel give
4.0, otherwise the first `(\d+\.?\d*)` match is parsed, defaulting to 4.0
when absent. -/
def parseRating (s : List Char) : ℚ :=
  if s = [] ∨ s = notFound then 4
  else
    match firstDecimal s with
    | some m => decValue m
    | none => 4

/-- Embeds `parseReviewsCount` of `server.js`: falsy input or the sentinel
give 1000; otherwise commas are removed, the first `\d+` match is parsed
and 1000 is returned when no digit exists. -/
def parseReviewsCount (s : List Char) : ℕ :=
  if s = [] ∨ s = notFound then 1000
  else
    match firstDigitRun (s.filter (fun c => !(c = ','))) with
    | some r => natOfDigits r
    | none => 1000

/-- JS `Math.round`: round half toward positive infinity. -/
def jsRound (q : ℚ) : ℤ := ⌊q + 1 / 2⌋

/-- Decides whether `pat` occurs as a contiguous substring of the first
argument, as JS `String.prototype.includes` does. -/
def listContains : List Char → List Char → Bool
  | [], pat => pat.isEmpty
  | x :: xs, pat => pat.isPrefixOf (x :: xs) || listContains xs pat

/-- The fixed brand catalog of `extractBrand` (the string with codepoint 39
reproduces the apostrophe of the source). -/
def commonBrands : List String :=
  ["Apple", "Samsung", "OnePlus", "Xiaomi", "Realme", "Oppo", "Vivo", "Google", "Motorola",
   "Nokia", "Huawei", "Honor", "POCO", "Redmi", "Nothing", "Asus", "Sony", "LG",
   "Nike", "Adidas", "Puma", "Reebok", "New Balance", "Converse", "Vans",
   "Zara", "H&M", "Uniqlo", "Forever 21", "Gap", "Levi" ++ (Char.ofNat 39).toString ++ "s", "Calvin Klein",
   "Canon", "Nikon", "Sony", "Panasonic", "Fujifilm", "Olympus",
   "Dell", "HP", "Lenovo", "Asus", "Acer", "MSI", "MacBook", "iMac", "boAt",
   "JBL", "Bose", "Sennheiser", "Skullcandy", "Marshall"]

/-- Embeds `extractBrand` of `server.js`: empty name gives "Unknown";
otherwise the first catalog brand contained (case-insensitively) in the
name wins; otherwise the first space-delimited word, or "Unknown" when
that is empty. -/
def extractBrand (name : List Char) : List Char :=
  if name = [] then "Unknown".data
  else
    match commonBrands.find? (fun b => listContains (name.map Char.toUpper) (b.data.map Char.toUpper)) with
    | some b => b.data
    | none =>
      let fw := name.takeWhile (fun c => !(c = ' '))
      if fw = [] then "Unknown".data else fw

/-- Line terminators, which the JS regex `.` does not match. -/
def isLineTerm (c : Char) : Bool :=
  c = '\n' || c = '\r' || c = Char.ofNat 8232 || c = Char.ofNat 8233

/-- Holds when a string contains no line terminator. -/
def noTerm (l : List Char) : Bool := l.all (fun c => !(isLineTerm c))

/-- Embeds `src.replace(/\?.*$/, '')`: the match starts at the leftmost
`?` whose tail contains no line terminator (as `.` cannot cross one and
`$` anchors the end), and everything from that `?` on is removed. -/
def stripQuery : List Char → List Char
  | [] => []
  | x :: xs => if x = '?' && noTerm xs then [] else x :: stripQuery xs

/-- Attempts to match the regex `image\/\d+\/\d+\//` at the head of the
string, returning the match length: the literal `image/`, a maximal
non-empty digit run, `/`, a second maximal non-empty digit run, `/`. -/
def tryTok (l : List Char) : Option ℕ :=
  match l with
  | 'i' :: 'm' :: 'a' :: 'g' :: 'e' :: '/' :: rest =>
    let d1 := rest.takeWhile Char.isDigit
    let r1 := rest.drop d1.length
    let d2 := (r1.drop 1).takeWhile Char.isDigit
    let r2 := (r1.drop 1).drop d2.length
    if d1 = [] ∨ r1.take 1 ≠ ['/'] ∨ d2 = [] ∨ r2.take 1 ≠ ['/'] then none
    else some (6 + d1.length + 1 + d2.length + 1)
  | _ => none

/-- Shape of a successful `tryTok` match: the literal `image/`, the first
digit run, a slash, the second digit run, a slash. -/
def tokPat (d1 d2 : List Char) : List Char :=
  'i' :: 'm' :: 'a' :: 'g' :: 'e' :: '/' :: (d1 ++ '/' :: (d2 ++ ['/']))

/-- The replacement text `image/${resolution}/`. -/
def newTok (res : List Char) : List Char :=
  'i' :: 'm' :: 'a' :: 'g' :: 'e' :: '/' :: (res ++ ['/'])

/-- Embeds `cleanUrl.replace(/image\/\d+\/\d+\//, ...)`: the leftmost
occurrence of the resolution token is replaced by `image/${resolution}/`. -/
def replaceTok (res : List Char) : List Char → List Char
  | [] => []
  | x :: xs =>
    match tryTok (x :: xs) with
    | some n => newTok res ++ (x :: xs).drop n
    | none => x :: replaceTok res xs

/-- Embeds `cleanUrl.replace(/image\/128\/128\//, ...)` of the primary
gallery tier: the leftmost occurrence of the literal `image/128/128/` is
replaced by `image/${resolution}/`. -/
def replaceLit (pat rep : List Char) : List Char → List Char
  | [] => []
  | x :: xs =>
    if pat.isPrefixOf (x :: xs) then rep ++ (x :: xs).drop pat.length
    else x :: replaceLit pat rep xs

/-- The literal token replaced in the primary gallery tier. -/
def lit128 : List Char := "image/128/128/".data

/-- The scraper's default image resolution token `"832/832"`. -/
def defaultRes : List Char := "832/832".data

/-- Iteration of `new Set(imageUrls)` with an explicit set of values seen
so far: an element is kept exactly when it has not been seen yet. -/
def dedupFirstAux (seen : List (List Char)) : List (List Char) → List (List Char)
  | [] => []
  | x :: xs =>
    if x ∈ seen then dedupFirstAux seen xs
    else x :: dedupFirstAux (x :: seen) xs

/-- Deduplication by `[...new Set(imageUrls)]`: keep the first occurrence
of every value, in first-seen order. -/
def dedupFirst (l : List (List Char)) : List (List Char) := dedupFirstAux [] l

/-- Index of the first occurrence of a value in a list of strings (the
length of the list when the value is absent). -/
def idxOf (v : List Char) : List (List Char) → ℕ
  | [] => 0
  | x :: xs => if x = v then 0 else idxOf v xs + 1

/-- Per-URL processing of the fallback image tier (and of the image URL
normalizer of the specification): strip the query string, then rewrite
the first `image/<digits>/<digits>/` token to the requested resolution. -/
def processUrl (res : List Char) (s : List Char) : List Char :=
  replaceTok res (stripQuery s)

/-- The image URL normalizer: per-URL processing followed by first-seen
deduplication. -/
def normalizeImages (res : List Char) (xs : List (List Char)) : List (List Char) :=
  dedupFirst (xs.map (processUrl res))

/-- The literal substring that marks placeholder images. -/
def placeholderL : List Char := "placeholder".data

/-- Regex `\s*`: greedily skip whitespace. -/
def skipWs (l : List Char) : List Char := l.dropWhile isWs

/-- Regex `(\d+)`: greedily capture one or more digits, returning the
capture and the rest. -/
def matchDigits (l : List Char) : Option (List Char × List Char) :=
  let d := l.takeWhile Char.isDigit
  if d = [] then none else some (d, l.drop d.length)

/-- Case-insensitive character comparison for the `/i` regex flag. -/
def charCI (a b : Char) : Bool := a.toLower = b.toLower

/-- Matches a literal case-insensitively at the head, returning the rest. -/
def matchLitCI : List Char → List Char → Option (List Char)
  | [], l => some l
  | _ :: _, [] => none
  | p :: ps, x :: xs => if charCI p x then matchLitCI ps xs else none

/-- Regex `c?` (case-insensitive): consume the character when present. -/
def optCharCI (c : Char) (l : List Char) : List Char :=
  match l with
  | x :: xs => if charCI c x then xs else l
  | [] => l

/-- Anchored match of `\((\d+)\s*GB\s*RAM,?\s*(\d+)\s*GB\s*Storage?\)/i`,
the first storage pattern. -/
def p1At (l : List Char) : Option (List Char × List Char) :=
  match l with
  | '(' :: r0 => do
    let (d1, r1) ← matchDigits r0
    let r2 ← matchLitCI "GB".data (skipWs r1)
    let r3 ← matchLitCI "RAM".data (skipWs r2)
    let r4 := skipWs (optCharCI ',' r3)
    let (d2, r5) ← matchDigits r4
    let r6 ← matchLitCI "GB".data (skipWs r5)
    let r7 ← matchLitCI "Storag".data (skipWs r6)
    match optCharCI 'e' r7 with
    | ')' :: _ => some (d1, d2)
    | _ => none
  | _ => none

/-- Regex `\+`: match a literal plus sign. -/
def matchPlus (l : List Char) : Option (List Char) :=
  match l with
  | '+' :: t => some t
  | _ => none

/-- Anchored match of `\((\d+)\s*GB\s*\+\s*(\d+)\s*GB\)/i`, the second
storage pattern. -/
def p2At (l : List Char) : Option (List Char × List Char) :=
  match l with
  | '(' :: r0 => do
    let (d1, r1) ← matchDigits r0
    let r2 ← matchLitCI "GB".data (skipWs r1)
    let r3 ← matchPlus (skipWs r2)
    let (d2, r4) ← matchDigits (skipWs r3)
    let r5 ← matchLitCI "GB".data (skipWs r4)
    match r5 with
    | ')' :: _ => some (d1, d2)
    | _ => none
  | _ => none

/-- Anchored match of `(\d+)\s*GB\s*RAM,?\s*(\d+)\s*GB/i`, the third
storage pattern. -/
def p3At (l : List Char) : Option (List Char × List Char) := do
  let (d1, r1) ← matchDigits l
  let r2 ← matchLitCI "GB".data (skipWs r1)
  let r3 ← matchLitCI "RAM".data (skipWs r2)
  let r4 := skipWs (optCharCI ',' r3)
  let (d2, r5) ← matchDigits r4
  let _ ← matchLitCI "GB".data (skipWs r5)
  some (d1, d2)

/-- Anchored match of `\((\d+)\s*GB\)/i`, the fourth storage pattern. -/
def p4At (l : List Char) : Option (List Char) :=
  match l with
  | '(' :: r0 => do
    let (d, r1) ← matchDigits r0
    let r2 ← matchLitCI "GB".data (skipWs r1)
    match r2 with
    | ')' :: _ => some d
    | _ => none
  | _ => none

/-- Anchored match of `(\d+)\s*GB(?!\s*RAM)/i`, the fifth storage pattern,
with its negative lookahead. -/
def p5At (l : List Char) : Option (List Char) := do
  let (d, r1) ← matchDigits l
  let r2 ← matchLitCI "GB".data (skipWs r1)
  if (matchLitCI "RAM".data (skipWs r2)).isSome then none else some d

/-- Anchored match of `\((\d+)\s*TB\)/i`, the sixth storage pattern. -/
def p6At (l : List Char) : Option (List Char) :=
  match l with
  | '(' :: r0 => do
    let (d, r1) ← matchDigits r0
    let r2 ← matchLitCI "TB".data (skipWs r1)
    match r2 with
    | ')' :: _ => some d
    | _ => none
  | _ => none

/-- Anchored match of `(\d+)\s*TB/i`, the seventh storage pattern. -/
def p7At (l : List Char) : Option (List Char) := do
  let (d, r1) ← matchDigits l
  let _ ← matchLitCI "TB".data (skipWs r1)
  some d

/-- Anchored match of `\((\d+)\s*GB\s*RAM\)/i`, the RAM-only
parenthetical of the post-pass. -/
def ramOnlyAt (l : List Char) : Option (List Char) :=
  match l with
  | '(' :: r0 => do
    let (d, r1) ← matchDigits r0
    let r2 ← matchLitCI "GB".data (skipWs r1)
    let r3 ← matchLitCI "RAM".data (skipWs r2)
    match r3 with
    | ')' :: _ => some d
    | _ => none
  | _ => none

/-- Unanchored regex search: try the anchored matcher at every start
position from the left, as `String.prototype.match` does. -/
def scanFor {α : Type} (f : List Char → Option α) : List Char → Option α
  | [] => none
  | x :: xs =>
    match f (x :: xs) with
    | some a => some a
    | none => scanFor f xs

/-- Outcome of the storage-pattern loop of `extractVariants`: either an
explicit RAM + storage combination (a two-group match) or a lone storage
size in GB or TB. -/
inductive StorageHit where
  | combined (ram storage : List Char)
  | single (n : List Char) (isTB : Bool)
deriving DecidableEq

/-- The ordered storage-pattern loop of `extractVariants`: the seven
patterns are tried in declaration order and the first matching one wins. -/
def storageLoop (name : List Char) : Option StorageHit :=
  match scanFor p1At name with
  | some (r, s) => some (.combined r s)
  | none =>
    match scanFor p2At name with
    | some (r, s) => some (.combined r s)
    | none =>
      match scanFor p3At name with
      | some (r, s) => some (.combined r s)
      | none =>
        match scanFor p4At name with
        | some n => some (.single n false)
        | none =>
          match scanFor p5At name with
          | some n => some (.single n false)
          | none =>
            match scanFor p6At name with
            | some n => some (.single n true)
            | none =>
              match scanFor p7At name with
              | some n => some (.single n true)
              | none => none

/-- Storage string produced by the loop: `"${ram}GB + ${storageSize}GB"`
for a combined match, `"${storageSize} GB"` or `"${storageSize} TB"` for a
lone one, empty when nothing matched. -/
def storageString : Option StorageHit → List Char
  | none => []
  | some (.combined r s) => r ++ "GB + ".data ++ s ++ "GB".data
  | some (.single n tb) => n ++ (if tb then " TB".data else " GB".data)

/-- Embeds the storage half of `extractVariants`: the pattern loop, then
the RAM-only post-pass (`if (ramOnlyMatch && storage &&
!storage.includes('+'))`), then the final trim. -/
def extractVariantsStorage (name : List Char) : List Char :=
  let storage := storageString (storageLoop name)
  let storage2 :=
    match scanFor ramOnlyAt name with
    | some r =>
      if storage ≠ [] ∧ '+' ∉ storage then r ++ "GB + ".data ++ storage
      else storage
    | none => storage
  jsTrim storage2

/-- The ordered price-slab table of `getMRP`. -/
def slabs : List (ℤ × ℤ) :=
  [(20000, 199), (25000, 249), (30000, 299), (35000, 319), (40000, 339),
   (45000, 359), (50000, 379), (55000, 399), (60000, 419), (65000, 439),
   (70000, 459), (75000, 479), (80000, 499), (85000, 519), (90000, 539),
   (95000, 559), (100000, 579), (105000, 599), (110000, 619), (115000, 639),
   (120000, 659), (125000, 679), (130000, 699)]

/-- Embeds `getMRP`: the resolved price of the first slab whose ceiling is
at least the given price, `none` above the last ceiling. -/
def getMRP (price : ℤ) : Option ℤ :=
  (slabs.find? (fun e => price ≤ e.1)).map Prod.snd

/-- JS `a || b` on a nullable number: `null` and `0` fall through to the
default. -/
def jsOrInt (o : Option ℤ) (d : ℤ) : ℤ :=
  match o with
  | some v => if v = 0 then d else v
  | none => d

/-- Sale price chosen by `handleAutoFill`:
`const finalSalePrice = getMRP(scrapedData.mrp) || scrapedData.salePrice`. -/
def autoFillSalePrice (mrp salePrice : ℤ) : ℤ :=
  jsOrInt (getMRP mrp) salePrice

/-- Matches a literal exactly at the head, returning the rest. -/
def matchLit : List Char → List Char → Option (List Char)
  | [], l => some l
  | _ :: _, [] => none
  | p :: ps, x :: xs => if p = x then matchLit ps xs else none

/-- Regex `c?` (case-sensitive): consume the character when present. -/
def optChar (c : Char) (l : List Char) : List Char :=
  match l with
  | x :: xs => if x = c then xs else l
  | [] => l

/-- Regex `[\d,]+`: greedily capture digits and commas. -/
def matchNumClass (l : List Char) : Option (List Char × List Char) :=
  let d := l.takeWhile (fun c => c.isDigit || c = ',')
  if d = [] then none else some (d, l.drop d.length)

/-- Regex `\s+`: consume one or more whitespace characters. -/
def matchWsPlus (l : List Char) : Option (List Char) :=
  let w := l.takeWhile isWs
  if w = [] then none else some (l.drop w.length)

/-- Anchored match of
`([\d,]+)\s+Ratings\s*&?\s*([\d,]+)\s+Reviews`, the ratings/reviews
counting regex. -/
def rrAt (l : List Char) : Option (List Char × List Char) := do
  let (d1, r1) ← matchNumClass l
  let r2 ← matchWsPlus r1
  let r3 ← matchLit "Ratings".data r2
  let r4 := skipWs (optChar '&' (skipWs r3))
  let (d2, r5) ← matchNumClass r4
  let r6 ← matchWsPlus r5
  let _ ← matchLit "Reviews".data r6
  some (d1, d2)

/-- JS `text.split(pat)[0]`: the part before the first occurrence of the
separator (the whole string when the separator is absent). -/
def splitBeforeLit (pat : List Char) : List Char → List Char
  | [] => []
  | x :: xs => if pat.isPrefixOf (x :: xs) then [] else x :: splitBeforeLit pat xs

/-- One `img` element as seen by cheerio: its `src` and `data-src`
attributes, each possibly absent. -/
structure ImgNode where
  src : Option (List Char)
  dataSrc : Option (List Char)
deriving DecidableEq

/-- The `div._5OesEi.HDvrBb` rating block: the texts of its first
`div.XQDdHH` and `span.Wphh3N` descendants, when those exist. -/
structure RatingBlock where
  xqddhh : Option (List Char)
  wphh3n : Option (List Char)

/-- Parsed-document handle: `q` returns the text of the first element
matched by a single-element selector (or `none` when no element matches),
`ratingDiv` models the nested rating block, `gallery` the
`div.+P14Qy img._0DkuPH` image list, and `qImgs` the node lists of the
alternate image selectors. -/
structure Doc where
  q : String → Option (List Char)
  ratingDiv : Option RatingBlock
  gallery : Option (List ImgNode)
  qImgs : String → List ImgNode

/-- Primary product-name selector. -/
def nameSel : String := "span.VU-ZEz"

/-- Alternate product-name selectors, in fallback order. -/
def altNameSelectors : List String :=
  ["h1[class*=\"x2Jnf\"]", "span[class*=\"B_NuCI\"]", "h1.yhB1nd", ".B_NuCI"]

/-- Primary price selector. -/
def priceSel : String := "div.yRaY8j.A6\\+E6v"

/-- Alternate price selectors, in fallback order. -/
def altPriceSelectors : List String :=
  ["._30jeq3._16Jk6d", "._1_WHN1", ".CEmiEU .srp-price", "._3I9_wc._27UcVY"]

/-- Alternate rating selectors, in fallback order. -/
def altRatingSelectors : List String :=
  ["._3LWZlK", ".hGSR34", "._2_R_DZ span"]

/-- Alternate image selectors, in fallback order. -/
def altImageSelectors : List String :=
  ["._2r_T1I img", "._396cs4 img", ".q6DClP img", "._1AtVbE img"]

/-- JS truthiness of a nullable string: `null` and `""` are falsy. -/
def jsFalsyOpt : Option (List Char) → Bool
  | none => true
  | some [] => true
  | some (_ :: _) => false

/-- JS `s || d` on a nullable string: `null` and `""` fall through to the
default. -/
def jsOrStr (o : Option (List Char)) (d : List Char) : List Char :=
  match o with
  | some t => if t = [] then d else t
  | none => d

/-- Shared alternate-selector loop: the first selector whose element
exists and has non-empty trimmed text wins. -/
def altLoop (q : String → Option (List Char)) (sels : List String) : Option (List Char) :=
  sels.findSome? (fun sel =>
    match q sel with
    | some t => if jsTrim t = [] then none else some (jsTrim t)
    | none => none)

/-- Product-name extraction: the trimmed primary span, then the alternate
loop whenever the primary value is falsy. -/
def extractName (d : Doc) : Option (List Char) :=
  let n0 := (d.q nameSel).map jsTrim
  if jsFalsyOpt n0 then
    match altLoop d.q altNameSelectors with
    | some t => some t
    | none => n0
  else n0

/-- Price extraction, with the same primary/alternate structure. -/
def extractPrice (d : Doc) : Option (List Char) :=
  let p0 := (d.q priceSel).map jsTrim
  if jsFalsyOpt p0 then
    match altLoop d.q altPriceSelectors with
    | some t => some t
    | none => p0
  else p0

/-- Rating text from the primary rating block:
`ratingSpan.text().trim().split('img')[0]`. -/
def ratingFromDiv (d : Doc) : Option (List Char) :=
  d.ratingDiv.bind (fun rb => rb.xqddhh.map (fun t => splitBeforeLit "img".data (jsTrim t)))

/-- Rating extraction: the primary block value, then the alternate loop
whenever that value is falsy. -/
def extractRating (d : Doc) : Option (List Char) :=
  let r0 := ratingFromDiv d
  if jsFalsyOpt r0 then
    match altLoop d.q altRatingSelectors with
    | some t => some t
    | none => r0
  else r0

/-- Ratings/reviews counts from the primary rating block, via the
counting regex on the trimmed `span.Wphh3N` text. -/
def countsFromDiv (d : Doc) : Option (List Char × List Char) :=
  d.ratingDiv.bind (fun rb => rb.wphh3n.bind (fun t => scanFor rrAt (jsTrim t)))

/-- Ratings-count extraction (first capture group). -/
def extractRatingsCount (d : Doc) : Option (List Char) :=
  (countsFromDiv d).map Prod.fst

/-- Reviews-count extraction (second capture group). -/
def extractReviewsCount (d : Doc) : Option (List Char) :=
  (countsFromDiv d).map Prod.snd

/-- Primary image tier: every gallery node with a truthy `src` attribute
contributes its query-stripped, `image/128/128/`-rewritten URL, with no
placeholder filtering. -/
def primaryImages (res : List Char) (d : Doc) : List (List Char) :=
  match d.gallery with
  | some nodes =>
    nodes.filterMap (fun nd =>
      match nd.src with
      | some s => if s = [] then none else some (replaceLit lit128 (newTok res) (stripQuery s))
      | none => none)
  | none => []

/-- Alternate-tier per-node processing: `src || data-src` must be truthy
and must not contain "placeholder"; the URL is then query-stripped and
resolution-rewritten. -/
def processAltNode (res : List Char) (nd : ImgNode) : Option (List Char) :=
  match
    (match nd.src with
     | some s => if s = [] then nd.dataSrc else some s
     | none => nd.dataSrc) with
  | some s =>
    if s ≠ [] ∧ ¬ listContains s placeholderL then some (processUrl res s) else none
  | none => none

/-- Alternate image tier: the first alternate selector with any nodes is
processed and the loop stops there. -/
def altImages (res : List Char) (d : Doc) : List (List Char) :=
  match altImageSelectors.find? (fun sel => !(d.qImgs sel).isEmpty) with
  | some sel => (d.qImgs sel).filterMap (processAltNode res)
  | none => []

/-- Image extraction: the primary gallery tier, the alternate tier when
that produced nothing, then duplicate removal. -/
def extractImages (res : List Char) (d : Doc) : List (List Char) :=
  let primary := primaryImages res d
  dedupFirst (if primary = [] then altImages res d else primary)

/-- The record returned by `scrapeFlipkartProduct`. -/
structure ScrapeResult where
  product_name : List Char
  price : List Char
  rating : List Char
  ratings_count : List Char
  reviews_count : List Char
  images : List (List Char)
deriving DecidableEq

/-- Embeds the return value of `scrapeFlipkartProduct`: every text field
falls back to the "Not found" sentinel via `||`. -/
def scrapeFlipkartProduct (res : List Char) (d : Doc) : ScrapeResult :=
  { product_name := jsOrStr (extractName d) notFound
    price := jsOrStr (extractPrice d) notFound
    rating := jsOrStr (extractRating d) notFound
    ratings_count := jsOrStr (extractRatingsCount d) notFound
    reviews_count := jsOrStr (extractReviewsCount d) notFound
    images := extractImages res d }

/-- The normalized record sent by the `/api/scrape-product` route. -/
structure NormalizedProduct where
  name : List Char
  brand : List Char
  mrp : ℤ
  salePrice : ℤ
  images : List (List Char)
  averageRating : ℚ
  totalReviews : ℤ
deriving DecidableEq

/-- Embeds the `transformedData` object built by the route handler; the JS
`Math.round(parsePrice(scrapedData.price) * 0.85)` is modelled with exact
rational arithmetic, `0.85 = 17/20`. -/
def transformedData (r : ScrapeResult) : NormalizedProduct :=
  { name := r.product_name
    brand := extractBrand r.product_name
    mrp := (parsePrice r.price : ℤ)
    salePrice := jsRound ((parsePrice r.price : ℚ) * (17 / 20))
    images := r.images.filter (fun i => !(i.isEmpty) && !((jsTrim i).isEmpty))
    averageRating := parseRating r.rating
    totalReviews := (parseReviewsCount r.reviews_count : ℤ) }

/-- Full population of one extracted text field: the field is the
"Not found" sentinel or the (non-empty) extracted text, and is never the
empty string. -/
def sentinelOrText (o : Option (List Char)) (f : List Char) : Prop :=
  (f = notFound ∨ ∃ t, o = some t ∧ t ≠ [] ∧ f = t) ∧ f ≠ []

/-- Document on which every selector strategy misses. -/
def emptyDoc : Doc :=
  { q := fun _ => none, ratingDiv := none, gallery := none, qImgs := fun _ => [] }

/-- Document whose primary gallery contains a placeholder image source. -/
def placeholderGalleryDoc : Doc :=
  { emptyDoc with
    gallery := some [{ src := some "https://z/placeholder1.png".data, dataSrc := none }] }

/-- Document with no gallery whose first alternate image selector yields a
placeholder node and a regular node. -/
def altPlaceholderDoc : Doc :=
  { emptyDoc with
    qImgs := fun sel =>
      if sel = "._2r_T1I img" then
        [{ src := some "https://z/placeholder2.png".data, dataSrc := none },
         { src := some "https://ok/image/128/128/a.png?v=1".data, dataSrc := none }]
      else [] }

/-- Concrete scrape result with price text "₹24,900". -/
def scrape24900 : ScrapeResult :=
  { product_name := notFound
    price := "₹24,900".data
    rating := notFound
    ratings_count := notFound
    reviews_count := notFound
    images := [] }

/-- Concrete scrape result with price text "₹1,40,000", above the last
slab ceiling. -/
def scrape140000 : ScrapeResult :=
  { product_name := notFound
    price := "₹1,40,000".data
    rating := notFound
    ratings_count := notFound
    reviews_count := notFound
    images := [] }

end FlipkartPanel

namespace FlipkartPanel

theorem sanity_check_01 : stripQuery "https://x/img?v=1".data = "https://x/img".data := by decide
theorem sanity_check_02 : processUrl defaultRes "https://x/image/128/128/a.png?q=1".data =
    "https://x/image/832/832/a.png".data := by decide
theorem sanity_check_03 : replaceLit lit128 (newTok defaultRes) "https://x/image/128/128/a.png".data =
    "https://x/image/832/832/a.png".data := by decide
theorem sanity_check_04 : normalizeImages defaultRes ["https://x/img?v=1".data, "https://x/img?v=2".data] =
    ["https://x/img".data] := by decide
theorem sanity_check_05 : scrapeFlipkartProduct defaultRes emptyDoc =
    { product_name := notFound, price := notFound, rating := notFound,
      ratings_count := notFound, reviews_count := notFound, images := [] } := by decide
theorem sanity_check_06 : extractImages defaultRes placeholderGalleryDoc = ["https://z/placeholder1.png".data] := by decide
theorem sanity_check_07 : extractImages defaultRes altPlaceholderDoc = ["https://ok/image/832/832/a.png".data] := by decide
theorem sanity_check_08 : scanFor rrAt "1,234 Ratings & 567 Reviews".data = some ("1,234".data, "567".data) := by decide
theorem sanity_check_09 : extractVariantsStorage "(8 GB RAM, 128 GB Storage)".data = "8GB + 128GB".data := by decide
theorem sanity_check_10 : extractVariantsStorage "8GB+128GB".data = "8 GB".data := by decide
theorem sanity_check_11 : extractVariantsStorage "(8GB+128GB)".data = "8GB + 128GB".data := by decide
theorem sanity_check_12 : extractVariantsStorage "iPhone 15 (128 GB) - Blue".data = "128 GB".data := by decide
theorem sanity_check_13 : extractVariantsStorage "Phone 128 GB (8 GB RAM)".data = "8GB + 128 GB".data := by decide
theorem sanity_check_14 : extractVariantsStorage "Nothing Special".data = [] := by decide
theorem sanity_check_15 : getMRP 24900 = some 249 := by decide
theorem sanity_check_16 : getMRP 130001 = none := by decide
theorem sanity_check_17 : autoFillSalePrice 150000 127500 = 127500 := by decide
theorem sanity_check_18 : parsePrice "₹24,999".data = 24999 := by decide

/-! Helper lemmas about the digit matchers. -/

theorem firstDigitRun_eq_none {l : List Char} (h : ∀ c ∈ l, ¬ c.isDigit) :
    firstDigitRun l = none := by
  induction l with
  | nil => rfl
  | cons c cs ih =>
    have hc : ¬ c.isDigit := h c (List.mem_cons_self c cs)
    simp only [firstDigitRun, if_neg hc]
    exact ih (fun x hx => h x (List.mem_cons_of_mem c hx))

theorem firstDecimal_eq_none {l : List Char} (h : ∀ c ∈ l, ¬ c.isDigit) :
    firstDecimal l = none := by
  induction l with
  | nil => rfl
  | cons c cs ih =>
    have hc : ¬ c.isDigit := h c (List.mem_cons_self c cs)
    simp only [firstDecimal, if_neg hc]
    exact ih (fun x hx => h x (List.mem_cons_of_mem c hx))

/-- Claim C2: `parsePrice` treats currency symbols, commas and whitespace
as noise, parses the first maximal digit run of the stripped string, and
returns 0 on the "Not found" sentinel or when no digit exists; in
particular every digit-free text gives exactly 0. -/
theorem parsePrice_spec_conformance :
    (∀ s : List Char, parsePrice s = parsePriceSpec s) ∧
    (∀ s : List Char, (∀ c ∈ s, ¬ c.isDigit) → parsePrice s = 0) ∧
    parsePrice notFound = 0 := by
  refine ⟨?_, ?_, by decide⟩
  · intro s
    by_cases h1 : s = []
    · subst h1; decide
    · by_cases h2 : s = notFound
      · subst h2; decide
      · simp [parsePrice, parsePriceSpec, h1, h2]
  · intro s h
    by_cases hc : s = [] ∨ s = notFound
    · simp [parsePrice, hc]
    · have hnone : firstDigitRun (s.filter (fun c => !(isNoise c))) = none :=
        firstDigitRun_eq_none (fun c hcm => h c (List.mem_of_mem_filter hcm))
      simp [parsePrice, hc, hnone]

/-- Witness for C2 at concrete inputs. -/
theorem parsePrice_spec_conformance_witness :
    parsePrice "abc".data = 0 ∧ parsePrice "₹ , ".data = 0 :=
  ⟨parsePrice_spec_conformance.2.1 "abc".data (by decide),
   parsePrice_spec_conformance.2.1 "₹ , ".data (by decide)⟩

theorem decValue_43 : decValue "4.3".data = 43 / 10 := by
  have h : decValue "4.3".data =
      (natOfDigits ['4'] : ℚ) + (natOfDigits ['3'] : ℚ) / 10 ^ ([ '3' ] : List Char).length := rfl
  have h4 : natOfDigits ['4'] = 4 := rfl
  have h3 : natOfDigits ['3'] = 3 := rfl
  rw [h, h4, h3]
  norm_num

/-- Claim C5: `parseRating` returns the value of the first
`digits[.digits]` occurrence when one exists, returns exactly 4.0 when
none exists or the input is the "Not found" sentinel, and can only return
0.0 through an explicit zero-valued match, never as a missing-rating
default. -/
theorem parseRating_first_decimal_or_default :
    (∀ s m, s ≠ [] → s ≠ notFound → firstDecimal s = some m → parseRating s = decValue m) ∧
    parseRating "4.3 out of 5".data = 43 / 10 ∧
    (∀ s : List Char, (∀ c ∈ s, ¬ c.isDigit) → parseRating s = 4) ∧
    parseRating notFound = 4 ∧
    (∀ s : List Char, parseRating s = 0 → ∃ m, firstDecimal s = some m ∧ decValue m = 0) := by
  have key : ∀ s m, s ≠ [] → s ≠ notFound → firstDecimal s = some m → parseRating s = decValue m := by
    intro s m h1 h2 hm
    simp [parseRating, h1, h2, hm]
  refine ⟨key, ?_, ?_, by norm_num [parseRating], ?_⟩
  · have hfd : firstDecimal "4.3 out of 5".data = some "4.3".data := by decide
    rw [key _ _ (by decide) (by decide) hfd, decValue_43]
  · intro s h
    by_cases hc : s = [] ∨ s = notFound
    · simp [parseRating, hc]
    · have hnone : firstDecimal s = none := firstDecimal_eq_none h
      simp [parseRating, hc, hnone]
  · intro s h
    by_cases hc : s = [] ∨ s = notFound
    · simp [parseRating, hc] at h
    · cases hfd : firstDecimal s with
      | none => simp [parseRating, hc, hfd] at h
      | some m =>
        refine ⟨m, rfl, ?_⟩
        simpa [parseRating, hc, hfd] using h

/-- Witness for C5 at concrete inputs. -/
theorem parseRating_first_decimal_or_default_witness :
    parseRating "4.3 out of 5".data = decValue "4.3".data ∧ parseRating "n/a".data = 4 :=
  ⟨parseRating_first_decimal_or_default.1 "4.3 out of 5".data "4.3".data
      (by decide) (by decide) (by decide),
   parseRating_first_decimal_or_default.2.2.1 "n/a".data (by decide)⟩

theorem transformed_salePrice_eq (r : ScrapeResult) :
    (transformedData r).salePrice = jsRound (((transformedData r).mrp : ℚ) * (17 / 20)) := by
  simp only [transformedData]
  norm_cast

/-- Claim C9: the backend route computes `salePrice` as
`Math.round(mrp * 0.85)` from the same parsed price as `mrp`, never
through the price-slab table (at price text "₹24,900" it sends 21165,
not the slab value 249). -/
theorem backend_flat_discount_invariant :
    (∀ r : ScrapeResult,
      (transformedData r).salePrice = jsRound (((transformedData r).mrp : ℚ) * (17 / 20))) ∧
    (transformedData scrape24900).mrp = 24900 ∧
    (transformedData scrape24900).salePrice = 21165 ∧
    getMRP 24900 = some 249 ∧ (21165 : ℤ) ≠ 249 := by
  have hp : parsePrice scrape24900.price = 24900 := by decide
  refine ⟨transformed_salePrice_eq, ?_, ?_, by decide, by decide⟩
  · show ((parsePrice scrape24900.price : ℕ) : ℤ) = 24900
    rw [hp]
    norm_num
  · show jsRound ((parsePrice scrape24900.price : ℚ) * (17 / 20)) = 21165
    rw [hp]
    norm_num [jsRound]

theorem getMRP_eq_none_of_gt {p : ℤ} (hp : 130000 < p) : getMRP p = none := by
  have hfind : slabs.find? (fun e => decide (p ≤ e.1)) = none := by
    rw [List.find?_eq_none]
    intro e he
    have hce : e.1 ≤ 130000 := by
      have hall : ∀ e2 ∈ slabs, e2.1 ≤ 130000 := by decide
      exact hall e he
    simp only [decide_eq_true_eq]
    omega
  simp [getMRP, hfind]

/-- Claim C4: `getMRP` resolves an MRP through the first slab whose
ceiling is at least the MRP (24900 resolves to 249 through ceiling
25000), signals `none` above the highest ceiling, and in that case
`handleAutoFill` falls back to the scraped `round(mrp * 0.85)` sale
price. -/
theorem price_slab_resolution_and_fallback :
    getMRP 24900 = some 249 ∧
    (∀ p v, getMRP p = some v →
      ∃ pre e post, slabs = pre ++ e :: post ∧ p ≤ e.1 ∧ v = e.2 ∧ ∀ e2 ∈ pre, e2.1 < p) ∧
    (∀ p : ℤ, 130000 < p → getMRP p = none) ∧
    (∀ r : ScrapeResult, 130000 < (transformedData r).mrp →
      autoFillSalePrice (transformedData r).mrp (transformedData r).salePrice =
        jsRound (((transformedData r).mrp : ℚ) * (17 / 20))) := by
  refine ⟨by decide, ?_, fun p hp => getMRP_eq_none_of_gt hp, ?_⟩
  · intro p v h
    obtain ⟨e, hfind, hev⟩ := Option.map_eq_some'.mp h
    rw [List.find?_eq_some] at hfind
    obtain ⟨hpe, pre, post, hsplit, hprev⟩ := hfind
    refine ⟨pre, e, post, hsplit, by simpa using hpe, hev.symm, ?_⟩
    intro e2 he2
    have := hprev e2 he2
    simp only [Bool.not_eq_true', decide_eq_false_iff_not] at this
    omega
  · intro r h
    rw [autoFillSalePrice, getMRP_eq_none_of_gt h, jsOrInt, transformed_salePrice_eq r]

/-- Witness for C4 at concrete inputs. -/
theorem price_slab_resolution_and_fallback_witness :
    (∃ pre e post, slabs = pre ++ e :: post ∧ (24900 : ℤ) ≤ e.1 ∧ (249 : ℤ) = e.2 ∧
      ∀ e2 ∈ pre, e2.1 < (24900 : ℤ)) ∧
    getMRP 140000 = none ∧
    autoFillSalePrice (transformedData scrape140000).mrp (transformedData scrape140000).salePrice =
      jsRound (((transformedData scrape140000).mrp : ℚ) * (17 / 20)) :=
  ⟨price_slab_resolution_and_fallback.2.1 24900 249 (by decide),
   price_slab_resolution_and_fallback.2.2.1 140000 (by decide),
   price_slab_resolution_and_fallback.2.2.2 scrape140000 (by decide)⟩

theorem find_slab_mono (p1 p2 : ℤ) (hle : p1 ≤ p2) :
    ∀ l : List (ℤ × ℤ), l.Pairwise (fun a b => a.2 ≤ b.2) →
    ∀ e2, l.find? (fun e => decide (p2 ≤ e.1)) = some e2 →
    ∃ e1, l.find? (fun e => decide (p1 ≤ e.1)) = some e1 ∧ e1.2 ≤ e2.2 := by
  intro l
  induction l with
  | nil => intro _ e2 h; simp at h
  | cons a rest ih =>
    intro hpw e2 h2
    by_cases ha2 : p2 ≤ a.1
    · rw [List.find?_cons_of_pos _ (by simpa using ha2)] at h2
      have ha1 : p1 ≤ a.1 := le_trans hle ha2
      exact ⟨a, List.find?_cons_of_pos _ (by simpa using ha1),
        le_of_eq (congrArg Prod.snd (Option.some.inj h2))⟩
    · rw [List.find?_cons_of_neg _ (by simpa using ha2)] at h2
      by_cases ha1 : p1 ≤ a.1
      · have hmem : e2 ∈ rest := List.mem_of_find?_eq_some h2
        have hval : a.2 ≤ e2.2 := (List.pairwise_cons.mp hpw).1 e2 hmem
        exact ⟨a, List.find?_cons_of_pos _ (by simpa using ha1), hval⟩
      · obtain ⟨e1, hf, hv⟩ := ih (List.pairwise_cons.mp hpw).2 e2 h2
        exact ⟨e1, by rw [List.find?_cons_of_neg _ (by simpa using ha1)]; exact hf, hv⟩

theorem getMRP_total_of_le {p : ℤ} (hp : p ≤ 130000) :
    ∃ v, getMRP p = some v ∧ v ∈ slabs.map Prod.snd ∧ 199 ≤ v ∧ v ≤ 699 := by
  have hex : ∃ e ∈ slabs, (fun e => decide (p ≤ e.1)) e := by
    refine ⟨(130000, 699), by decide, by simpa using hp⟩
  have hsome := List.find?_isSome.mpr hex
  obtain ⟨e, he⟩ := Option.isSome_iff_exists.mp hsome
  have hmem : e ∈ slabs := List.mem_of_find?_eq_some he
  have hbound : ∀ e2 ∈ slabs, 199 ≤ e2.2 ∧ e2.2 ≤ 699 := by decide
  exact ⟨e.2, by simp [getMRP, he], List.mem_map_of_mem _ hmem,
    (hbound e hmem).1, (hbound e hmem).2⟩

/-- Claim C10: `getMRP` is monotone below the top ceiling, returns one of
the listed resolved prices (all between 199 and 699) for every MRP up to
130000 including zero and negative values, and returns `null` exactly for
MRPs above 130000. -/
theorem getMRP_monotone_total_bounded :
    (∀ p1 p2 : ℤ, p1 ≤ p2 → p2 ≤ 130000 →
      ∃ v1 v2, getMRP p1 = some v1 ∧ getMRP p2 = some v2 ∧ v1 ≤ v2) ∧
    (∀ p : ℤ, p ≤ 130000 →
      ∃ v, getMRP p = some v ∧ v ∈ slabs.map Prod.snd ∧ 199 ≤ v ∧ v ≤ 699) ∧
    (∀ p : ℤ, getMRP p = none ↔ 130000 < p) := by
  have hpw : slabs.Pairwise (fun a b => a.2 ≤ b.2) := by decide
  refine ⟨?_, fun p hp => getMRP_total_of_le hp, ?_⟩
  · intro p1 p2 h12 h2
    obtain ⟨v2, hv2, -, -, -⟩ := getMRP_total_of_le h2
    obtain ⟨e2, hf2, hev2⟩ := Option.map_eq_some'.mp hv2
    obtain ⟨e1, hf1, hle⟩ := find_slab_mono p1 p2 h12 slabs hpw e2 hf2
    exact ⟨e1.2, e2.2, by simp [getMRP, hf1], by simp [getMRP, hf2], hle⟩
  · intro p
    constructor
    · intro hnone
      by_contra hgt
      push_neg at hgt
      obtain ⟨v, hv, -, -, -⟩ := getMRP_total_of_le hgt
      rw [hnone] at hv
      exact Option.noConfusion hv
    · exact fun hp => getMRP_eq_none_of_gt hp

/-- Witness for C10 at concrete inputs. -/
theorem getMRP_monotone_total_bounded_witness :
    (∃ v1 v2, getMRP (-5) = some v1 ∧ getMRP 128000 = some v2 ∧ v1 ≤ v2) ∧
    (∃ v, getMRP 0 = some v ∧ v ∈ slabs.map Prod.snd ∧ 199 ≤ v ∧ v ≤ 699) ∧
    (getMRP 130001 = none ↔ (130000 : ℤ) < 130001) :=
  ⟨getMRP_monotone_total_bounded.1 (-5) 128000 (by norm_num) (by norm_num),
   getMRP_monotone_total_bounded.2.1 0 (by norm_num),
   getMRP_monotone_total_bounded.2.2 130001⟩

/-! Helper lemmas about the storage-pattern matchers. -/

theorem matchDigits_digits {l d r : List Char} (h : matchDigits l = some (d, r)) :
    d ≠ [] ∧ ∀ c ∈ d, c.isDigit := by
  by_cases he : l.takeWhile Char.isDigit = []
  · simp [matchDigits, he] at h
  · simp only [matchDigits, if_neg he, Option.some.injEq, Prod.mk.injEq] at h
    refine ⟨h.1 ▸ he, ?_⟩
    intro c hc
    rw [← h.1] at hc
    exact List.mem_takeWhile_imp hc

theorem scanFor_eq_some {α : Type} {f : List Char → Option α} :
    ∀ {l : List Char} {a : α}, scanFor f l = some a → ∃ t, f t = some a := by
  intro l
  induction l with
  | nil => intro a h; simp [scanFor] at h
  | cons x xs ih =>
    intro a h
    rw [scanFor] at h
    cases hf : f (x :: xs) with
    | some b =>
      simp only [hf] at h
      exact ⟨x :: xs, by rw [hf, h]⟩
    | none =>
      simp only [hf] at h
      exact ih h

theorem p1At_digits {l : List Char} {d1 d2 : List Char} (h : p1At l = some (d1, d2)) :
    (d1 ≠ [] ∧ ∀ c ∈ d1, c.isDigit) ∧ (d2 ≠ [] ∧ ∀ c ∈ d2, c.isDigit) := by
  unfold p1At at h
  split at h
  case h_2 => exact absurd h (by simp)
  case h_1 r0 =>
    simp only [bind, Option.bind_eq_some] at h
    obtain ⟨⟨e1, r1⟩, hm1, h⟩ := h
    obtain ⟨r2, hm2, h⟩ := h
    obtain ⟨r3, hm3, h⟩ := h
    obtain ⟨⟨e2, r5⟩, hm4, h⟩ := h
    obtain ⟨r6, hm5, h⟩ := h
    obtain ⟨r7, hm6, h⟩ := h
    split at h
    · obtain ⟨he1, he2⟩ := Prod.mk.injEq .. ▸ Option.some.inj h
      subst he1; subst he2
      exact ⟨matchDigits_digits hm1, matchDigits_digits hm4⟩
    · exact absurd h (by simp)

theorem p2At_digits {l : List Char} {d1 d2 : List Char} (h : p2At l = some (d1, d2)) :
    (d1 ≠ [] ∧ ∀ c ∈ d1, c.isDigit) ∧ (d2 ≠ [] ∧ ∀ c ∈ d2, c.isDigit) := by
  unfold p2At at h
  split at h
  case h_2 => exact absurd h (by simp)
  case h_1 r0 =>
    simp only [bind, Option.bind_eq_some] at h
    obtain ⟨⟨e1, r1⟩, hm1, h⟩ := h
    obtain ⟨r2, hm2, h⟩ := h
    obtain ⟨r3, hm3, h⟩ := h
    obtain ⟨⟨e2, r4⟩, hm4, h⟩ := h
    obtain ⟨r5, hm5, h⟩ := h
    split at h
    · obtain ⟨he1, he2⟩ := Prod.mk.injEq .. ▸ Option.some.inj h
      subst he1; subst he2
      exact ⟨matchDigits_digits hm1, matchDigits_digits hm4⟩
    · exact absurd h (by simp)

theorem p3At_digits {l : List Char} {d1 d2 : List Char} (h : p3At l = some (d1, d2)) :
    (d1 ≠ [] ∧ ∀ c ∈ d1, c.isDigit) ∧ (d2 ≠ [] ∧ ∀ c ∈ d2, c.isDigit) := by
  unfold p3At at h
  simp only [bind, Option.bind_eq_some] at h
  obtain ⟨⟨e1, r1⟩, hm1, h⟩ := h
  obtain ⟨r2, hm2, h⟩ := h
  obtain ⟨r3, hm3, h⟩ := h
  obtain ⟨⟨e2, r5⟩, hm4, h⟩ := h
  obtain ⟨r6, hm5, h⟩ := h
  obtain ⟨he1, he2⟩ := Prod.mk.injEq .. ▸ Option.some.inj h
  subst he1; subst he2
  exact ⟨matchDigits_digits hm1, matchDigits_digits hm4⟩

theorem p4At_digits {l d : List Char} (h : p4At l = some d) :
    d ≠ [] ∧ ∀ c ∈ d, c.isDigit := by
  unfold p4At at h
  split at h
  case h_2 => exact absurd h (by simp)
  case h_1 r0 =>
    simp only [bind, Option.bind_eq_some] at h
    obtain ⟨⟨e1, r1⟩, hm1, h⟩ := h
    obtain ⟨r2, hm2, h⟩ := h
    split at h
    · exact Option.some.inj h ▸ matchDigits_digits hm1
    · exact absurd h (by simp)

theorem p5At_digits {l d : List Char} (h : p5At l = some d) :
    d ≠ [] ∧ ∀ c ∈ d, c.isDigit := by
  unfold p5At at h
  simp only [bind, Option.bind_eq_some] at h
  obtain ⟨⟨e1, r1⟩, hm1, h⟩ := h
  obtain ⟨r2, hm2, h⟩ := h
  split at h
  · exact absurd h (by simp)
  · exact Option.some.inj h ▸ matchDigits_digits hm1

theorem p6At_digits {l d : List Char} (h : p6At l = some d) :
    d ≠ [] ∧ ∀ c ∈ d, c.isDigit := by
  unfold p6At at h
  split at h
  case h_2 => exact absurd h (by simp)
  case h_1 r0 =>
    simp only [bind, Option.bind_eq_some] at h
    obtain ⟨⟨e1, r1⟩, hm1, h⟩ := h
    obtain ⟨r2, hm2, h⟩ := h
    split at h
    · exact Option.some.inj h ▸ matchDigits_digits hm1
    · exact absurd h (by simp)

theorem p7At_digits {l d : List Char} (h : p7At l = some d) :
    d ≠ [] ∧ ∀ c ∈ d, c.isDigit := by
  unfold p7At at h
  simp only [bind, Option.bind_eq_some] at h
  obtain ⟨⟨e1, r1⟩, hm1, h⟩ := h
  obtain ⟨r2, hm2, h⟩ := h
  exact Option.some.inj h ▸ matchDigits_digits hm1

theorem storageLoop_single_src {name st : List Char} {tb : Bool}
    (h : storageLoop name = some (.single st tb)) :
    ∃ t, p4At t = some st ∨ p5At t = some st ∨ p6At t = some st ∨ p7At t = some st := by
  unfold storageLoop at h
  cases h1 : scanFor p1At name with
  | some v =>
    obtain ⟨a, b⟩ := v
    simp only [h1] at h
    simp at h
  | none =>
    simp only [h1] at h
    cases h2 : scanFor p2At name with
    | some v =>
      obtain ⟨a, b⟩ := v
      simp only [h2] at h
      simp at h
    | none =>
      simp only [h2] at h
      cases h3 : scanFor p3At name with
      | some v =>
        obtain ⟨a, b⟩ := v
        simp only [h3] at h
        simp at h
      | none =>
        simp only [h3] at h
        cases h4 : scanFor p4At name with
        | some n =>
          simp only [h4, Option.some.injEq, StorageHit.single.injEq] at h
          obtain ⟨t, ht⟩ := scanFor_eq_some h4
          exact ⟨t, Or.inl (h.1 ▸ ht)⟩
        | none =>
          simp only [h4] at h
          cases h5 : scanFor p5At name with
          | some n =>
            simp only [h5, Option.some.injEq, StorageHit.single.injEq] at h
            obtain ⟨t, ht⟩ := scanFor_eq_some h5
            exact ⟨t, Or.inr (Or.inl (h.1 ▸ ht))⟩
          | none =>
            simp only [h5] at h
            cases h6 : scanFor p6At name with
            | some n =>
              simp only [h6, Option.some.injEq, StorageHit.single.injEq] at h
              obtain ⟨t, ht⟩ := scanFor_eq_some h6
              exact ⟨t, Or.inr (Or.inr (Or.inl (h.1 ▸ ht)))⟩
            | none =>
              simp only [h6] at h
              cases h7 : scanFor p7At name with
              | some n =>
                simp only [h7, Option.some.injEq, StorageHit.single.injEq] at h
                obtain ⟨t, ht⟩ := scanFor_eq_some h7
                exact ⟨t, Or.inr (Or.inr (Or.inr (h.1 ▸ ht)))⟩
              | none =>
                simp only [h7] at h
                exact absurd h (by simp)

theorem storageLoop_combined_src {name ram s : List Char}
    (h : storageLoop name = some (.combined ram s)) :
    ∃ t, p1At t = some (ram, s) ∨ p2At t = some (ram, s) ∨ p3At t = some (ram, s) := by
  unfold storageLoop at h
  cases h1 : scanFor p1At name with
  | some v =>
    obtain ⟨a, b⟩ := v
    simp only [h1, Option.some.injEq, StorageHit.combined.injEq] at h
    obtain ⟨t, ht⟩ := scanFor_eq_some h1
    exact ⟨t, Or.inl (h.1 ▸ h.2 ▸ ht)⟩
  | none =>
    simp only [h1] at h
    cases h2 : scanFor p2At name with
    | some v =>
      obtain ⟨a, b⟩ := v
      simp only [h2, Option.some.injEq, StorageHit.combined.injEq] at h
      obtain ⟨t, ht⟩ := scanFor_eq_some h2
      exact ⟨t, Or.inr (Or.inl (h.1 ▸ h.2 ▸ ht))⟩
    | none =>
      simp only [h2] at h
      cases h3 : scanFor p3At name with
      | some v =>
        obtain ⟨a, b⟩ := v
        simp only [h3, Option.some.injEq, StorageHit.combined.injEq] at h
        obtain ⟨t, ht⟩ := scanFor_eq_some h3
        exact ⟨t, Or.inr (Or.inr (h.1 ▸ h.2 ▸ ht))⟩
      | none =>
        simp only [h3] at h
        cases h4 : scanFor p4At name with
        | some n => simp [h4] at h
        | none =>
          simp only [h4] at h
          cases h5 : scanFor p5At name with
          | some n => simp [h5] at h
          | none =>
            simp only [h5] at h
            cases h6 : scanFor p6At name with
            | some n => simp [h6] at h
            | none =>
              simp only [h6] at h
              cases h7 : scanFor p7At name with
              | some n => simp [h7] at h
              | none =>
                simp only [h7] at h
                exact absurd h (by simp)

theorem ramOnlyAt_digits {l d : List Char} (h : ramOnlyAt l = some d) :
    d ≠ [] ∧ ∀ c ∈ d, c.isDigit := by
  unfold ramOnlyAt at h
  split at h
  case h_2 => exact absurd h (by simp)
  case h_1 r0 =>
    simp only [bind, Option.bind_eq_some] at h
    obtain ⟨⟨e1, r1⟩, hm1, h⟩ := h
    obtain ⟨r2, hm2, h⟩ := h
    obtain ⟨r3, hm3, h⟩ := h
    split at h
    · exact Option.some.inj h ▸ matchDigits_digits hm1
    · exact absurd h (by simp)

theorem storageLoop_single_digits {name st : List Char} {tb : Bool}
    (h : storageLoop name = some (.single st tb)) :
    st ≠ [] ∧ ∀ c ∈ st, c.isDigit := by
  obtain ⟨t, ht | ht | ht | ht⟩ := storageLoop_single_src h
  · exact p4At_digits ht
  · exact p5At_digits ht
  · exact p6At_digits ht
  · exact p7At_digits ht

theorem storageLoop_combined_digits {name ram s : List Char}
    (h : storageLoop name = some (.combined ram s)) :
    (ram ≠ [] ∧ ∀ c ∈ ram, c.isDigit) ∧ (s ≠ [] ∧ ∀ c ∈ s, c.isDigit) := by
  obtain ⟨t, ht | ht | ht⟩ := storageLoop_combined_src h
  · exact p1At_digits ht
  · exact p2At_digits ht
  · exact p3At_digits ht

theorem dropWhile_eq_self_head {p : Char → Bool} :
    ∀ {l : List Char}, (∀ c ∈ l.take 1, ¬ p c) → l.dropWhile p = l := by
  intro l h
  cases l with
  | nil => rfl
  | cons x xs =>
    have hx : ¬ p x := h x (by simp)
    simp [List.dropWhile_cons, hx]

theorem jsTrim_eq_self {l : List Char} (h1 : ∀ c ∈ l.take 1, ¬ isWs c)
    (h2 : ∀ c ∈ l.reverse.take 1, ¬ isWs c) : jsTrim l = l := by
  unfold jsTrim
  rw [dropWhile_eq_self_head h1, dropWhile_eq_self_head h2, List.reverse_reverse]

theorem isDigit_not_ws {c : Char} (h : c.isDigit) : ¬ isWs c := by
  intro hw
  simp only [isWs, Bool.or_eq_true, decide_eq_true_eq] at hw
  rcases hw with ((((((((h1 | h1) | h1) | h1) | h1) | h1) | h1) | h1) | h1) | h1 <;>
    subst h1 <;> exact absurd h (by decide)

theorem jsTrim_append_eq_self (c0 cL : Char) {a b : List Char} (ha : a.take 1 = [c0])
    (hc0 : ¬ isWs c0) (hb : b.reverse.take 1 = [cL]) (hcL : ¬ isWs cL) :
    jsTrim (a ++ b) = a ++ b := by
  apply jsTrim_eq_self
  · intro c hc
    have hta : (a ++ b).take 1 = [c0] := by
      cases a with
      | nil => simp at ha
      | cons x xs =>
        simp only [List.take_succ_cons, List.take_zero] at ha
        simp only [List.cons.injEq] at ha
        simp [List.cons_append, ha.1]
    rw [hta] at hc
    simp at hc
    subst hc
    exact hc0
  · intro c hc
    have htb : (a ++ b).reverse.take 1 = [cL] := by
      rw [List.reverse_append]
      cases hbr : b.reverse with
      | nil => rw [hbr] at hb; simp at hb
      | cons y ys =>
        rw [hbr] at hb
        simp only [List.take_succ_cons, List.take_zero] at hb
        simp only [List.cons.injEq] at hb
        simp [List.cons_append, hb.1]
    rw [htb] at hc
    simp at hc
    subst hc
    exact hcL

theorem trim_combined {ram s : List Char} (hrne : ram ≠ []) (hrd : ∀ c ∈ ram, c.isDigit) :
    jsTrim (ram ++ "GB + ".data ++ s ++ "GB".data) = ram ++ "GB + ".data ++ s ++ "GB".data := by
  obtain ⟨c0, r2, rfl⟩ := List.exists_cons_of_ne_nil hrne
  rw [List.append_assoc, List.append_assoc]
  apply jsTrim_append_eq_self c0 'B'
  · simp
  · exact isDigit_not_ws (hrd c0 (by simp))
  · rw [List.reverse_append, List.reverse_append]
    simp
  · decide

theorem trim_single_ram {r st u : List Char} (hrne : r ≠ []) (hrd : ∀ c ∈ r, c.isDigit)
    (hu : u.reverse.take 1 = ['B']) :
    jsTrim (r ++ "GB + ".data ++ (st ++ u)) = r ++ "GB + ".data ++ (st ++ u) := by
  obtain ⟨c0, r2, rfl⟩ := List.exists_cons_of_ne_nil hrne
  rw [List.append_assoc]
  apply jsTrim_append_eq_self c0 'B'
  · simp
  · exact isDigit_not_ws (hrd c0 (by simp))
  · rw [List.reverse_append, List.reverse_append]
    cases hbr : u.reverse with
    | nil => rw [hbr] at hu; simp at hu
    | cons y ys =>
      rw [hbr] at hu
      simp only [List.take_succ_cons, List.take_zero, List.cons.injEq] at hu
      simp [List.cons_append, hu.1]
  · decide

theorem extractVariantsStorage_combined {name ram s : List Char}
    (h : storageLoop name = some (.combined ram s)) :
    extractVariantsStorage name = ram ++ "GB + ".data ++ s ++ "GB".data := by
  obtain ⟨⟨hrne, hrd⟩, -⟩ := storageLoop_combined_digits h
  have hplus : '+' ∈ ram ++ "GB + ".data ++ s ++ "GB".data := by
    have : '+' ∈ "GB + ".data := by decide
    simp [List.mem_append, this]
  unfold extractVariantsStorage
  rw [h]
  simp only [storageString]
  cases hro : scanFor ramOnlyAt name with
  | some r =>
    simp only [hro]
    rw [if_neg (fun hand => hand.2 hplus)]
    exact trim_combined hrne hrd
  | none =>
    simp only [hro]
    exact trim_combined hrne hrd

theorem extractVariantsStorage_single_ram {name st : List Char} {tb : Bool} {r : List Char}
    (hloop : storageLoop name = some (.single st tb))
    (hram : scanFor ramOnlyAt name = some r) :
    extractVariantsStorage name =
      r ++ "GB + ".data ++ (st ++ (if tb then " TB".data else " GB".data)) := by
  obtain ⟨hstne, hstd⟩ := storageLoop_single_digits hloop
  obtain ⟨t, ht⟩ := scanFor_eq_some hram
  obtain ⟨hrne, hrd⟩ := ramOnlyAt_digits ht
  have hune : (if tb then " TB".data else " GB".data) ≠ [] := by cases tb <;> decide
  have hcond : st ++ (if tb then " TB".data else " GB".data) ≠ [] ∧
      '+' ∉ st ++ (if tb then " TB".data else " GB".data) := by
    constructor
    · intro hnil
      exact hune (List.append_eq_nil.mp hnil).2
    · intro hmem
      rcases List.mem_append.mp hmem with hin | hin
      · exact absurd (hstd '+' hin) (by decide)
      · cases tb <;> simp_all
  unfold extractVariantsStorage
  rw [hloop]
  simp only [storageString]
  simp only [hram]
  rw [if_pos hcond]
  exact trim_single_ram hrne hrd (by cases tb <;> decide)

/-- Claim C7: when the primary storage match is a bare (non-combined)
storage value and a RAM-only parenthetical "(N GB RAM)" also occurs in the
name, the RAM value is merged into the storage output as
"{ram}GB + {storage}"; when the primary match was already a combined
pattern the post-pass leaves the combined storage output unchanged. -/
theorem ram_postpass_merge :
    (∀ (name st : List Char) (tb : Bool) (r : List Char),
      storageLoop name = some (.single st tb) →
      scanFor ramOnlyAt name = some r →
      extractVariantsStorage name =
        r ++ "GB + ".data ++ (st ++ (if tb then " TB".data else " GB".data))) ∧
    (∀ name ram s : List Char, storageLoop name = some (.combined ram s) →
      extractVariantsStorage name = ram ++ "GB + ".data ++ s ++ "GB".data) :=
  ⟨fun _ _ _ _ hl hr => extractVariantsStorage_single_ram hl hr,
   fun _ _ _ h => extractVariantsStorage_combined h⟩

/-- Witness for C7 at concrete inputs. -/
theorem ram_postpass_merge_witness :
    extractVariantsStorage "Phone 128 GB (8 GB RAM)".data =
      "8".data ++ "GB + ".data ++ ("128".data ++ (if false then " TB".data else " GB".data)) ∧
    extractVariantsStorage "(8 GB RAM, 128 GB Storage)".data =
      "8".data ++ "GB + ".data ++ "128".data ++ "GB".data :=
  ⟨ram_postpass_merge.1 "Phone 128 GB (8 GB RAM)".data "128".data false "8".data
      (by decide) (by decide),
   ram_postpass_merge.2 "(8 GB RAM, 128 GB Storage)".data "8".data "128".data (by decide)⟩

/-- Counterexample to claim C3 as stated: the bare combined token
"8GB+128GB" (no parentheses, no RAM keyword) is not handled by any
combined pattern; the storage-only GB pattern matches first and the
output is "8 GB", not "8GB + 128GB". -/
theorem bare_plus_counterexample :
    extractVariantsStorage "8GB+128GB".data = "8 GB".data ∧
    extractVariantsStorage "8GB+128GB".data ≠ "8GB + 128GB".data := by decide

/-- Claim C3 as amended: the combined storage patterns — parenthesized
"(N GB RAM, M GB Storage)", parenthesized "(NGB+MGB)" and bare
"N GB RAM, M GB" — take priority in that order before every storage-only
pattern and format the output as "{ram}GB + {storage}GB"; a bare
"NGB+MGB" without parentheses instead falls through to the storage-only
GB pattern. -/
theorem combined_storage_priority :
    (∀ name r s : List Char, scanFor p1At name = some (r, s) →
      storageLoop name = some (.combined r s)) ∧
    (∀ name r s : List Char, scanFor p1At name = none → scanFor p2At name = some (r, s) →
      storageLoop name = some (.combined r s)) ∧
    (∀ name r s : List Char, scanFor p1At name = none → scanFor p2At name = none →
      scanFor p3At name = some (r, s) → storageLoop name = some (.combined r s)) ∧
    (∀ name ram s : List Char, storageLoop name = some (.combined ram s) →
      extractVariantsStorage name = ram ++ "GB + ".data ++ s ++ "GB".data) ∧
    storageLoop "8GB+128GB".data = some (.single "8".data false) := by
  refine ⟨?_, ?_, ?_, fun _ _ _ h => extractVariantsStorage_combined h, by decide⟩
  · intro name r s h
    unfold storageLoop
    simp [h]
  · intro name r s h1 h2
    unfold storageLoop
    simp [h1, h2]
  · intro name r s h1 h2 h3
    unfold storageLoop
    simp [h1, h2, h3]

/-- Witness for C3 at concrete inputs. -/
theorem combined_storage_priority_witness :
    storageLoop "(8 GB RAM, 128 GB Storage)".data = some (.combined "8".data "128".data) ∧
    extractVariantsStorage "(8GB+128GB)".data =
      "8".data ++ "GB + ".data ++ "128".data ++ "GB".data :=
  ⟨combined_storage_priority.1 "(8 GB RAM, 128 GB Storage)".data "8".data "128".data (by decide),
   combined_storage_priority.2.2.2.1 "(8GB+128GB)".data "8".data "128".data (by decide)⟩

theorem jsOrStr_sentinelOrText (o : Option (List Char)) :
    sentinelOrText o (jsOrStr o notFound) := by
  cases o with
  | none => exact ⟨Or.inl rfl, by decide⟩
  | some t =>
    by_cases ht : t = []
    · subst ht
      exact ⟨Or.inl (by simp [jsOrStr]), by simp [jsOrStr]; decide⟩
    · exact ⟨Or.inr ⟨t, rfl, ht, by simp [jsOrStr, ht]⟩, by simp [jsOrStr, ht]⟩

/-- Claim C8: for every input document the extraction result is fully
populated: each of the name, price, rating, ratings-count and
reviews-count fields is the trimmed extracted text or the exact
"Not found" sentinel and is never empty or null, images is always a
(possibly empty) list of strings, and on a document where every strategy
misses every field is the sentinel with an empty image list. -/
theorem scrape_result_fully_populated :
    (∀ d : Doc,
      sentinelOrText (extractName d) (scrapeFlipkartProduct defaultRes d).product_name ∧
      sentinelOrText (extractPrice d) (scrapeFlipkartProduct defaultRes d).price ∧
      sentinelOrText (extractRating d) (scrapeFlipkartProduct defaultRes d).rating ∧
      sentinelOrText (extractRatingsCount d) (scrapeFlipkartProduct defaultRes d).ratings_count ∧
      sentinelOrText (extractReviewsCount d) (scrapeFlipkartProduct defaultRes d).reviews_count ∧
      (scrapeFlipkartProduct defaultRes d).images = extractImages defaultRes d) ∧
    scrapeFlipkartProduct defaultRes emptyDoc =
      { product_name := notFound, price := notFound, rating := notFound,
        ratings_count := notFound, reviews_count := notFound, images := [] } := by
  refine ⟨fun d => ?_, by decide⟩
  exact ⟨jsOrStr_sentinelOrText _, jsOrStr_sentinelOrText _, jsOrStr_sentinelOrText _,
    jsOrStr_sentinelOrText _, jsOrStr_sentinelOrText _, rfl⟩
/-! Helper lemmas about first-seen deduplication. -/

theorem mem_dedupFirstAux {a : List Char} :
    ∀ {l seen : List (List Char)}, a ∈ dedupFirstAux seen l ↔ a ∈ l ∧ a ∉ seen := by
  intro l
  induction l with
  | nil => intro seen; simp [dedupFirstAux]
  | cons x xs ih =>
    intro seen
    by_cases hx : x ∈ seen
    · rw [dedupFirstAux, if_pos hx, ih]
      constructor
      · rintro ⟨h1, h2⟩
        exact ⟨List.mem_cons_of_mem x h1, h2⟩
      · rintro ⟨h1, h2⟩
        rcases List.mem_cons.mp h1 with rfl | h1
        · exact absurd hx h2
        · exact ⟨h1, h2⟩
    · rw [dedupFirstAux, if_neg hx]
      constructor
      · intro hmem
        rcases List.mem_cons.mp hmem with rfl | hmem
        · exact ⟨List.mem_cons_self _ _, hx⟩
        · obtain ⟨h1, h2⟩ := ih.mp hmem
          exact ⟨List.mem_cons_of_mem x h1, fun hs => h2 (List.mem_cons_of_mem x hs)⟩
      · rintro ⟨h1, h2⟩
        rcases List.mem_cons.mp h1 with rfl | h1
        · exact List.mem_cons_self _ _
        · by_cases hax : a = x
          · subst hax; exact List.mem_cons_self _ _
          · exact List.mem_cons_of_mem x
              (ih.mpr ⟨h1, fun hs => (List.mem_cons.mp hs).elim hax h2⟩)

theorem nodup_dedupFirstAux :
    ∀ (l seen : List (List Char)), (dedupFirstAux seen l).Nodup := by
  intro l
  induction l with
  | nil => intro seen; simp [dedupFirstAux]
  | cons x xs ih =>
    intro seen
    by_cases hx : x ∈ seen
    · rw [dedupFirstAux, if_pos hx]; exact ih seen
    · rw [dedupFirstAux, if_neg hx]
      refine List.nodup_cons.mpr ⟨?_, ih (x :: seen)⟩
      intro hmem
      exact (mem_dedupFirstAux.mp hmem).2 (List.mem_cons_self _ _)

theorem dedupFirstAux_sublist :
    ∀ (l seen : List (List Char)), List.Sublist (dedupFirstAux seen l) l := by
  intro l
  induction l with
  | nil => intro seen; simp [dedupFirstAux]
  | cons x xs ih =>
    intro seen
    by_cases hx : x ∈ seen
    · rw [dedupFirstAux, if_pos hx]
      exact (ih seen).trans (List.sublist_cons_self x xs)
    · rw [dedupFirstAux, if_neg hx]
      exact List.Sublist.cons₂ x (ih (x :: seen))

theorem dedupFirstAux_eq_self :
    ∀ (l seen : List (List Char)), l.Nodup → (∀ a ∈ l, a ∉ seen) →
      dedupFirstAux seen l = l := by
  intro l
  induction l with
  | nil => intro seen _ _; rfl
  | cons x xs ih =>
    intro seen hnd hout
    have hx : x ∉ seen := hout x (List.mem_cons_self _ _)
    rw [dedupFirstAux, if_neg hx]
    congr 1
    refine ih (x :: seen) (List.nodup_cons.mp hnd).2 ?_
    intro a ha hmem
    rcases List.mem_cons.mp hmem with rfl | hmem
    · exact (List.nodup_cons.mp hnd).1 ha
    · exact hout a (List.mem_cons_of_mem x ha) hmem

theorem dedupFirst_idem (l : List (List Char)) : dedupFirst (dedupFirst l) = dedupFirst l :=
  dedupFirstAux_eq_self _ [] (nodup_dedupFirstAux l []) (by simp)

theorem idxOf_cons_self {v : List Char} {l : List (List Char)} : idxOf v (v :: l) = 0 := by
  simp [idxOf]

theorem idxOf_cons_ne {v x : List Char} {l : List (List Char)} (h : x ≠ v) :
    idxOf v (x :: l) = idxOf v l + 1 := by
  simp [idxOf, h]

theorem dedupFirstAux_idxOf_iff :
    ∀ (l seen : List (List Char)) (v w : List Char), v ∉ seen → w ∉ seen → v ∈ l → w ∈ l →
      (idxOf v (dedupFirstAux seen l) < idxOf w (dedupFirstAux seen l) ↔
        idxOf v l < idxOf w l) := by
  intro l
  induction l with
  | nil => intro seen v w _ _ hv; simp at hv
  | cons x xs ih =>
    intro seen v w hvs hws hv hw
    by_cases hx : x ∈ seen
    · have hvx : v ≠ x := fun h => hvs (h ▸ hx)
      have hwx : w ≠ x := fun h => hws (h ▸ hx)
      rw [dedupFirstAux, if_pos hx,
        idxOf_cons_ne (fun h => hvx h.symm),
        idxOf_cons_ne (fun h => hwx h.symm),
        Nat.add_lt_add_iff_right]
      exact ih seen v w hvs hws
        ((List.mem_cons.mp hv).resolve_left hvx)
        ((List.mem_cons.mp hw).resolve_left hwx)
    · rw [dedupFirstAux, if_neg hx]
      by_cases hvx : v = x
      · subst hvx
        rw [idxOf_cons_self, idxOf_cons_self]
        by_cases hwx : w = v
        · subst hwx
          rw [idxOf_cons_self, idxOf_cons_self]
        · rw [idxOf_cons_ne (fun h => hwx h.symm),
            idxOf_cons_ne (fun h => hwx h.symm)]
          simp
      · by_cases hwx : w = x
        · subst hwx
          rw [idxOf_cons_self, idxOf_cons_self,
            idxOf_cons_ne (fun h => hvx h.symm),
            idxOf_cons_ne (fun h => hvx h.symm)]
          simp
        · rw [idxOf_cons_ne (fun h => hvx h.symm),
            idxOf_cons_ne (fun h => hwx h.symm),
            idxOf_cons_ne (fun h => hvx h.symm),
            idxOf_cons_ne (fun h => hwx h.symm),
            Nat.add_lt_add_iff_right, Nat.add_lt_add_iff_right]
          refine ih (x :: seen) v w ?_ ?_
            ((List.mem_cons.mp hv).resolve_left hvx)
            ((List.mem_cons.mp hw).resolve_left hwx)
          · intro h
            exact ((List.mem_cons.mp h).elim hvx (fun h2 => hvs h2))
          · intro h
            exact ((List.mem_cons.mp h).elim hwx (fun h2 => hws h2))
/-! Helper lemmas about query-string stripping. -/

theorem noTerm_of_stripQuery {l : List Char} (h : noTerm (stripQuery l)) : noTerm l := by
  induction l with
  | nil => exact h
  | cons x xs ih =>
    by_cases hc : (decide (x = '?') && noTerm xs) = true
    · rw [Bool.and_eq_true, decide_eq_true_eq] at hc
      rw [noTerm, List.all_cons, Bool.and_eq_true]
      refine ⟨?_, hc.2⟩
      rw [hc.1]
      decide
    · rw [stripQuery, if_neg hc, noTerm, List.all_cons, Bool.and_eq_true] at h
      rw [noTerm, List.all_cons, Bool.and_eq_true]
      exact ⟨h.1, ih h.2⟩

theorem stripQuery_idem (l : List Char) : stripQuery (stripQuery l) = stripQuery l := by
  induction l with
  | nil => rfl
  | cons x xs ih =>
    by_cases hc : (decide (x = '?') && noTerm xs) = true
    · rw [stripQuery, if_pos hc]
      rfl
    · rw [stripQuery, if_neg hc]
      have hc2 : ¬((decide (x = '?') && noTerm (stripQuery xs)) = true) := by
        intro hh
        rw [Bool.and_eq_true] at hh hc
        exact hc ⟨hh.1, noTerm_of_stripQuery hh.2⟩
      rw [stripQuery, if_neg hc2, ih]

theorem stripQuery_prefix_self (l : List Char) : stripQuery l <+: l := by
  induction l with
  | nil => exact List.nil_prefix
  | cons x xs ih =>
    by_cases hc : (decide (x = '?') && noTerm xs) = true
    · rw [stripQuery, if_pos hc]
      exact List.nil_prefix
    · rw [stripQuery, if_neg hc]
      obtain ⟨t, ht⟩ := ih
      exact ⟨t, by rw [List.cons_append, ht]⟩

theorem stripQuery_fixed_validQ {l : List Char} (h : stripQuery l = l) :
    ∀ p t : List Char, l = p ++ '?' :: t → noTerm t = false := by
  induction l with
  | nil =>
    intro p t hpt
    exact absurd hpt.symm (List.append_ne_nil_of_right_ne_nil p (by simp))
  | cons x xs ih =>
    intro p t hpt
    by_cases hc : (decide (x = '?') && noTerm xs) = true
    · rw [stripQuery, if_pos hc] at h
      exact absurd h.symm (by simp)
    · rw [stripQuery, if_neg hc] at h
      have hxs : stripQuery xs = xs := (List.cons.injEq .. ▸ h).2
      cases p with
      | nil =>
        simp only [List.nil_append, List.cons.injEq] at hpt
        obtain ⟨hx, ht⟩ := hpt
        subst hx
        rw [← ht]
        cases hnt : noTerm xs with
        | false => rfl
        | true => exact absurd (by rw [Bool.and_eq_true]; exact ⟨by decide, hnt⟩) hc
      | cons y p2 =>
        simp only [List.cons_append, List.cons.injEq] at hpt
        exact ih hxs p2 t hpt.2

theorem stripQuery_fixed_of_validQ {l : List Char}
    (h : ∀ p t : List Char, l = p ++ '?' :: t → noTerm t = false) : stripQuery l = l := by
  induction l with
  | nil => rfl
  | cons x xs ih =>
    have hc : ¬((decide (x = '?') && noTerm xs) = true) := by
      intro hh
      rw [Bool.and_eq_true, decide_eq_true_eq] at hh
      have := h [] xs (by rw [hh.1]; rfl)
      rw [this] at hh
      exact Bool.false_ne_true hh.2
    rw [stripQuery, if_neg hc]
    congr 1
    refine ih ?_
    intro p t hpt
    exact h (x :: p) t (by rw [hpt]; rfl)
/-! Helper lemmas about the resolution-token matcher. -/

theorem takeWhile_append_stop {p : Char → Bool} {d : List Char} {x : Char} {w : List Char}
    (hall : ∀ c ∈ d, p c = true) (hx : p x = false) :
    (d ++ x :: w).takeWhile p = d := by
  induction d with
  | nil => simp [List.takeWhile_cons, hx]
  | cons c cs ih =>
    have hc : p c = true := hall c (List.mem_cons_self _ _)
    simp [List.cons_append, List.takeWhile_cons, hc,
      ih (fun a ha => hall a (List.mem_cons_of_mem c ha))]

theorem take_one_eq_cons {l : List Char} {a : Char} (h : l.take 1 = [a]) :
    l = a :: l.drop 1 := by
  cases l with
  | nil => simp at h
  | cons x xs =>
    simp only [List.take_succ_cons, List.take_zero, List.cons.injEq] at h
    rw [h.1]
    rfl

theorem takeWhile_self_prefix_split (R : List Char) (p : Char → Bool) :
    R = R.takeWhile p ++ R.drop (R.takeWhile p).length := by
  obtain ⟨t, ht⟩ := List.takeWhile_prefix (l := R) p
  set A := R.takeWhile p with hA
  have hdrop : R.drop A.length = t := by
    rw [← ht]
    exact List.drop_left A t
  rw [hdrop]
  exact ht.symm

theorem tokPat_length (d1 d2 : List Char) :
    (tokPat d1 d2).length = d1.length + d2.length + 8 := by
  simp [tokPat]
  omega

theorem tryTok_shape {l : List Char} {n : ℕ} (h : tryTok l = some n) :
    ∃ d1 d2 r3, l = tokPat d1 d2 ++ r3 ∧ d1 ≠ [] ∧ d2 ≠ [] ∧
      (∀ c ∈ d1, c.isDigit) ∧ (∀ c ∈ d2, c.isDigit) ∧
      n = d1.length + d2.length + 8 := by
  unfold tryTok at h
  split at h
  case h_2 => exact absurd h (by simp)
  case h_1 R =>
    dsimp only at h
    split at h
    case isTrue => exact absurd h (by simp)
    case isFalse hcond =>
      push_neg at hcond
      obtain ⟨h1, h2, h3, h4⟩ := hcond
      set d1 := R.takeWhile Char.isDigit with hd1def
      set r1 := R.drop d1.length with hr1def
      set d2 := (r1.drop 1).takeWhile Char.isDigit with hd2def
      set r2 := (r1.drop 1).drop d2.length with hr2def
      refine ⟨d1, d2, r2.drop 1, ?_, h1, h3, ?_, ?_, ?_⟩
      · have hsplitR : R = d1 ++ r1 := takeWhile_self_prefix_split R Char.isDigit
        have hsplit1 : r1 = '/' :: r1.drop 1 := take_one_eq_cons h2
        have hsplitU : r1.drop 1 = d2 ++ r2 :=
          takeWhile_self_prefix_split (r1.drop 1) Char.isDigit
        have hsplit2 : r2 = '/' :: r2.drop 1 := take_one_eq_cons h4
        rw [tokPat, List.cons_append, List.cons_append, List.cons_append,
          List.cons_append, List.cons_append, List.cons_append]
        congr 1
        rw [hsplitR, hsplit1, hsplitU, hsplit2]
        simp [List.append_assoc]
      · exact fun c hc => List.mem_takeWhile_imp hc
      · exact fun c hc => List.mem_takeWhile_imp hc
      · have := Option.some.inj h
        omega

theorem tryTok_complete (d1 d2 : List Char) (hd1 : d1 ≠ []) (hd2 : d2 ≠ [])
    (h1 : ∀ c ∈ d1, c.isDigit) (h2 : ∀ c ∈ d2, c.isDigit) (z : List Char) :
    tryTok (tokPat d1 d2 ++ z) = some (d1.length + d2.length + 8) := by
  have hR : tokPat d1 d2 ++ z =
      'i' :: 'm' :: 'a' :: 'g' :: 'e' :: '/' :: (d1 ++ '/' :: (d2 ++ '/' :: z)) := by
    simp [tokPat]
  rw [hR]
  have htw1 : (d1 ++ '/' :: (d2 ++ '/' :: z)).takeWhile Char.isDigit = d1 :=
    takeWhile_append_stop h1 (by decide)
  have hdr1 : (d1 ++ '/' :: (d2 ++ '/' :: z)).drop d1.length = '/' :: (d2 ++ '/' :: z) :=
    List.drop_left d1 _
  have htw2 : (d2 ++ '/' :: z).takeWhile Char.isDigit = d2 :=
    takeWhile_append_stop h2 (by decide)
  have hdr2 : (d2 ++ '/' :: z).drop d2.length = '/' :: z :=
    List.drop_left d2 _
  show (if _ ∨ _ ∨ _ ∨ _ then _ else _) = _
  rw [if_neg]
  · rw [htw1, hdr1]
    simp only [List.drop_succ_cons, List.drop_zero, htw2]
    congr 1
    omega
  · rw [htw1, hdr1]
    simp only [List.drop_succ_cons, List.drop_zero, htw2, hdr2,
      List.take_succ_cons, List.take_zero]
    push_neg
    exact ⟨hd1, by simp, hd2, by simp⟩
theorem newTok_eq_tokPat : newTok defaultRes = tokPat ['8', '3', '2'] ['8', '3', '2'] := by
  decide

theorem tryTok_newTok (z : List Char) : tryTok (newTok defaultRes ++ z) = some 14 := by
  rw [newTok_eq_tokPat]
  exact tryTok_complete ['8', '3', '2'] ['8', '3', '2']
    (by decide) (by decide) (by decide) (by decide) z

theorem replaceTok_eq_of_some {l : List Char} {n : ℕ} (res : List Char)
    (h : tryTok l = some n) : replaceTok res l = newTok res ++ l.drop n := by
  cases l with
  | nil => simp [tryTok] at h
  | cons x xs => simp only [replaceTok, h]

theorem replaceTok_cons_none {x : Char} {xs : List Char} (res : List Char)
    (h : tryTok (x :: xs) = none) :
    replaceTok res (x :: xs) = x :: replaceTok res xs := by
  simp only [replaceTok, h]

theorem replaceTok_cases (res : List Char) (l : List Char) :
    replaceTok res l = l ∨
    ∃ c rest n, l = c ++ rest ∧ tryTok rest = some n ∧
      replaceTok res l = c ++ (newTok res ++ rest.drop n) := by
  induction l with
  | nil => exact Or.inl rfl
  | cons x xs ih =>
    cases ht : tryTok (x :: xs) with
    | some n =>
      refine Or.inr ⟨[], x :: xs, n, rfl, ht, ?_⟩
      rw [replaceTok_eq_of_some res ht]
      rfl
    | none =>
      rcases ih with hfix | ⟨c, rest, n, heq, htok, hrw⟩
      · exact Or.inl (by rw [replaceTok_cons_none res ht, hfix])
      · refine Or.inr ⟨x :: c, rest, n, by rw [heq]; rfl, htok, ?_⟩
        rw [replaceTok_cons_none res ht, hrw]
        rfl

theorem getElem?_append_mid {a b d : List Char} {i : ℕ} (h1 : a.length ≤ i)
    (h2 : i < a.length + b.length) :
    (a ++ (b ++ d))[i]? = b[i - a.length]? := by
  rw [List.getElem?_append_right h1]
  exact List.getElem?_append_left (by omega)

theorem prefix_of_append_eq {a b c d : List Char} (h : a ++ b = c ++ d)
    (hle : a.length ≤ c.length) : ∃ w, a ++ w = c := by
  rcases List.append_eq_append_iff.mp h with ⟨q, hq, -⟩ | ⟨q, hq, -⟩
  · exact ⟨q, hq.symm⟩
  · have hlen := congrArg List.length hq
    simp at hlen
    have hq0 : q = [] := List.eq_nil_of_length_eq_zero (by omega)
    exact ⟨[], by rw [List.append_nil, hq, hq0, List.append_nil]⟩
theorem tokPat_tail_no_i {D1 D2 : List Char} (h1 : ∀ c ∈ D1, c.isDigit)
    (h2 : ∀ c ∈ D2, c.isDigit) :
    'i' ∉ ('m' :: 'a' :: 'g' :: 'e' :: '/' :: (D1 ++ '/' :: (D2 ++ ['/']))) := by
  intro hmem
  rcases List.mem_cons.mp hmem with h | hmem
  · exact absurd h (by decide)
  rcases List.mem_cons.mp hmem with h | hmem
  · exact absurd h (by decide)
  rcases List.mem_cons.mp hmem with h | hmem
  · exact absurd h (by decide)
  rcases List.mem_cons.mp hmem with h | hmem
  · exact absurd h (by decide)
  rcases List.mem_cons.mp hmem with h | hmem
  · exact absurd h (by decide)
  rcases List.mem_append.mp hmem with hd | hmem
  · exact absurd (h1 _ hd) (by decide)
  rcases List.mem_cons.mp hmem with h | hmem
  · exact absurd h (by decide)
  rcases List.mem_append.mp hmem with hd | hmem
  · exact absurd (h2 _ hd) (by decide)
  · rw [List.mem_singleton] at hmem
    exact absurd hmem (by decide)

theorem tryTok_none_stable {x : Char} {xs : List Char} (h : tryTok (x :: xs) = none) :
    tryTok (x :: replaceTok defaultRes xs) = none := by
  cases hm : tryTok (x :: replaceTok defaultRes xs) with
  | none => rfl
  | some m =>
    exfalso
    obtain ⟨D1, D2, R3, hshape, hD1ne, hD2ne, hD1d, hD2d, hmlen⟩ := tryTok_shape hm
    rcases replaceTok_cases defaultRes xs with hfix | ⟨c, rest, n, hxs, htok, hrw⟩
    · rw [hfix, h] at hm
      exact Option.noConfusion hm
    · rw [hrw] at hshape
      have hlenP : (tokPat D1 D2).length = m := by rw [tokPat_length]; omega
      by_cases hcase : m ≤ 1 + c.length
      · have hshape2 : tokPat D1 D2 ++ R3 = (x :: c) ++ (newTok defaultRes ++ rest.drop n) := by
          rw [← hshape]
          rfl
        obtain ⟨w, hw⟩ := prefix_of_append_eq hshape2 (by simp [hlenP]; omega)
        have hx2 : x :: xs = tokPat D1 D2 ++ (w ++ rest) :=
          calc x :: xs = (x :: c) ++ rest := by rw [hxs]; rfl
          _ = (tokPat D1 D2 ++ w) ++ rest := by rw [hw]
          _ = tokPat D1 D2 ++ (w ++ rest) := List.append_assoc ..
        have hc2 := tryTok_complete D1 D2 hD1ne hD2ne hD1d hD2d (w ++ rest)
        rw [← hx2, h] at hc2
        exact Option.noConfusion hc2
      · push_neg at hcase
        have hidx1 : (x :: (c ++ (newTok defaultRes ++ rest.drop n)))[1 + c.length]? = some 'i' := by
          show ((x :: c) ++ (newTok defaultRes ++ rest.drop n))[1 + c.length]? = some 'i'
          rw [List.getElem?_append_right (by simp; omega)]
          have h0 : 1 + c.length - (x :: c).length = 0 := by simp; omega
          rw [h0]
          rfl
        rw [hshape] at hidx1
        rw [List.getElem?_append_left (by omega)] at hidx1
        have htail : ('m' :: 'a' :: 'g' :: 'e' :: '/' :: (D1 ++ '/' :: (D2 ++ ['/'])))[c.length]? =
            some 'i' := by
          rw [tokPat, Nat.add_comm] at hidx1
          simpa using hidx1
        exact tokPat_tail_no_i hD1d hD2d (List.getElem?_mem htail)

theorem replaceTok_idem (l : List Char) :
    replaceTok defaultRes (replaceTok defaultRes l) = replaceTok defaultRes l := by
  induction l with
  | nil => rfl
  | cons x xs ih =>
    cases ht : tryTok (x :: xs) with
    | some n =>
      rw [replaceTok_eq_of_some defaultRes ht,
        replaceTok_eq_of_some defaultRes (tryTok_newTok ((x :: xs).drop n))]
      rw [List.drop_left' (by decide)]
    | none =>
      rw [replaceTok_cons_none defaultRes ht,
        replaceTok_cons_none defaultRes (tryTok_none_stable ht), ih]
theorem isDigit_not_term {c : Char} (h : c.isDigit) : isLineTerm c = false := by
  cases hlt : isLineTerm c with
  | false => rfl
  | true =>
    exfalso
    simp only [isLineTerm, Bool.or_eq_true, decide_eq_true_eq] at hlt
    rcases hlt with ((h1 | h1) | h1) | h1 <;> subst h1 <;> exact absurd h (by decide)

theorem tokPat_mem {c : Char} {D1 D2 : List Char} (hmem : c ∈ tokPat D1 D2) :
    c ∈ (['i', 'm', 'a', 'g', 'e', '/'] : List Char) ∨ c ∈ D1 ∨ c ∈ D2 := by
  rw [tokPat] at hmem
  simp only [List.mem_cons, List.mem_append, List.mem_singleton] at hmem
  simp only [List.mem_cons, List.mem_singleton]
  tauto

theorem noTerm_append (a b : List Char) : noTerm (a ++ b) = (noTerm a && noTerm b) := by
  simp [noTerm, List.all_append]

theorem tokPat_noTerm {D1 D2 : List Char} (h1 : ∀ c ∈ D1, c.isDigit)
    (h2 : ∀ c ∈ D2, c.isDigit) : noTerm (tokPat D1 D2) = true := by
  rw [noTerm, List.all_eq_true]
  intro c hc
  rw [Bool.not_eq_true']
  rcases tokPat_mem hc with hl | hd | hd
  · simp only [List.mem_cons, List.mem_singleton, List.not_mem_nil, or_false] at hl
    rcases hl with rfl | rfl | rfl | rfl | rfl | rfl <;> decide
  · exact isDigit_not_term (h1 _ hd)
  · exact isDigit_not_term (h2 _ hd)

theorem stripQuery_fixed_replaceTok {l : List Char} (h : stripQuery l = l) :
    stripQuery (replaceTok defaultRes l) = replaceTok defaultRes l := by
  rcases replaceTok_cases defaultRes l with hfix | ⟨c, rest, n, heq, htok, hrw⟩
  · rw [hfix]
    exact h
  · obtain ⟨D1, D2, R3, hsh, hD1ne, hD2ne, hD1d, hD2d, hn⟩ := tryTok_shape htok
    have hdropn : rest.drop n = R3 := by
      rw [hsh]
      exact List.drop_left' (by rw [tokPat_length]; omega)
    rw [hrw, hdropn]
    have hl : l = c ++ (tokPat D1 D2 ++ R3) := by rw [heq, hsh]
    have hSQ1 := stripQuery_fixed_validQ h
    apply stripQuery_fixed_of_validQ
    intro p t hpt
    rcases List.append_eq_append_iff.mp hpt with ⟨q, hq1, hq2⟩ | ⟨q, hq1, hq2⟩
    · -- the marker is inside newTok ++ R3
      rcases List.append_eq_append_iff.mp hq2 with ⟨w, hw1, hw2⟩ | ⟨w, hw1, hw2⟩
      · -- R3 = w ++ '?' :: t
        have : l = (c ++ (tokPat D1 D2 ++ w)) ++ '?' :: t := by
          rw [hl, hw2]
          simp [List.append_assoc]
        exact hSQ1 _ _ this
      · -- '?' :: t = w ++ R3 with newTok = q ++ w
        cases w with
        | nil =>
          -- R3 = '?' :: t
          rw [List.nil_append] at hw2
          have : l = (c ++ tokPat D1 D2) ++ '?' :: t := by
            rw [hl, ← hw2]
            simp [List.append_assoc]
          exact hSQ1 _ _ this
        | cons y w2 =>
          exfalso
          have h2 := hw2
          rw [List.cons_append] at h2
          obtain ⟨hy, -⟩ := List.cons.inj h2
          have : '?' ∈ newTok defaultRes := by
            rw [hw1, ← hy]
            exact List.mem_append_right q (List.mem_cons_self _ _)
          exact absurd this (by decide)
    · -- c = p ++ q and '?' :: t = q ++ (newTok ++ R3)
      cases q with
      | nil =>
        exfalso
        rw [List.nil_append] at hq2
        have h2 : '?' :: t =
            'i' :: (('m' :: 'a' :: 'g' :: 'e' :: '/' :: (defaultRes ++ ['/'])) ++ R3) := hq2
        exact absurd (List.cons.inj h2).1 (by decide)
      | cons y q2 =>
        have h2 := hq2
        rw [List.cons_append] at h2
        obtain ⟨hy2, ht⟩ := List.cons.inj h2
        have hy : y = '?' := hy2.symm
        have hlsplit : l = p ++ '?' :: (q2 ++ (tokPat D1 D2 ++ R3)) := by
          rw [hl, hq1, hy]
          simp [List.append_assoc]
        have hfalse := hSQ1 _ _ hlsplit
        rw [ht, noTerm_append, noTerm_append]
        rw [noTerm_append, noTerm_append, tokPat_noTerm hD1d hD2d] at hfalse
        have hnewTerm : noTerm (newTok defaultRes) = true := by decide
        cases hq2b : noTerm q2 <;> cases hR3 : noTerm R3 <;> simp_all
theorem processUrl_idem (s : List Char) :
    processUrl defaultRes (processUrl defaultRes s) = processUrl defaultRes s := by
  unfold processUrl
  rw [stripQuery_fixed_replaceTok (stripQuery_idem s), replaceTok_idem]

theorem map_fixed_eq_self {g : List Char → List Char} :
    ∀ l : List (List Char), (∀ y ∈ l, g y = y) → l.map g = l := by
  intro l h
  induction l with
  | nil => rfl
  | cons x xs ih =>
    rw [List.map_cons, h x (List.mem_cons_self _ _),
      ih (fun y hy => h y (List.mem_cons_of_mem _ hy))]

theorem normalizeImages_idem (xs : List (List Char)) :
    normalizeImages defaultRes (normalizeImages defaultRes xs) = normalizeImages defaultRes xs := by
  unfold normalizeImages
  have hmap : (dedupFirst (xs.map (processUrl defaultRes))).map (processUrl defaultRes) =
      dedupFirst (xs.map (processUrl defaultRes)) := by
    apply map_fixed_eq_self
    intro y hy
    have hy2 : y ∈ xs.map (processUrl defaultRes) := (mem_dedupFirstAux.mp hy).1
    obtain ⟨x, -, rfl⟩ := List.mem_map.mp hy2
    exact processUrl_idem x
  rw [hmap]
  exact dedupFirst_idem _

/-- Claim C6: the image URL normalizer (query-string strip,
resolution-token rewrite, then exact-string deduplication) is idempotent;
duplicate URLs collapse to a single entry, and the output is a
duplicate-free sublist of the processed input with the same members,
ordered by first occurrence. -/
theorem image_normalizer_idempotent_dedup :
    (∀ xs : List (List Char),
      normalizeImages defaultRes (normalizeImages defaultRes xs) =
        normalizeImages defaultRes xs) ∧
    (∀ xs : List (List Char), (normalizeImages defaultRes xs).Nodup) ∧
    (∀ xs : List (List Char),
      List.Sublist (normalizeImages defaultRes xs) (xs.map (processUrl defaultRes))) ∧
    (∀ (xs : List (List Char)) (v : List Char),
      v ∈ normalizeImages defaultRes xs ↔ v ∈ xs.map (processUrl defaultRes)) ∧
    (∀ (xs : List (List Char)) (v w : List Char),
      v ∈ xs.map (processUrl defaultRes) → w ∈ xs.map (processUrl defaultRes) →
      (idxOf v (normalizeImages defaultRes xs) < idxOf w (normalizeImages defaultRes xs) ↔
        idxOf v (xs.map (processUrl defaultRes)) < idxOf w (xs.map (processUrl defaultRes)))) := by
  refine ⟨normalizeImages_idem, ?_, ?_, ?_, ?_⟩
  · intro xs
    exact nodup_dedupFirstAux _ []
  · intro xs
    exact dedupFirstAux_sublist _ []
  · intro xs v
    constructor
    · intro hmem
      exact (mem_dedupFirstAux.mp hmem).1
    · intro hmem
      exact mem_dedupFirstAux.mpr ⟨hmem, by simp⟩
  · intro xs v w hv hw
    exact dedupFirstAux_idxOf_iff _ [] v w (by simp) (by simp) hv hw

/-- Witness for C6 at concrete inputs. -/
theorem image_normalizer_idempotent_dedup_witness :
    (idxOf "https://x/img".data
        (normalizeImages defaultRes
          ["https://x/img?v=1".data, "https://y/b.png".data, "https://x/img?v=2".data]) <
      idxOf "https://y/b.png".data
        (normalizeImages defaultRes
          ["https://x/img?v=1".data, "https://y/b.png".data, "https://x/img?v=2".data]) ↔
      idxOf "https://x/img".data
        (["https://x/img?v=1".data, "https://y/b.png".data,
          "https://x/img?v=2".data].map (processUrl defaultRes)) <
      idxOf "https://y/b.png".data
        (["https://x/img?v=1".data, "https://y/b.png".data,
          "https://x/img?v=2".data].map (processUrl defaultRes))) :=
  image_normalizer_idempotent_dedup.2.2.2.2
    ["https://x/img?v=1".data, "https://y/b.png".data, "https://x/img?v=2".data]
    "https://x/img".data "https://y/b.png".data (by decide) (by decide)
theorem listContains_iff : ∀ l pat : List Char, listContains l pat = true ↔ pat <:+: l := by
  intro l
  induction l with
  | nil =>
    intro pat
    rw [listContains, List.isEmpty_iff, List.infix_nil]
  | cons x xs ih =>
    intro pat
    rw [listContains, Bool.or_eq_true, List.isPrefixOf_iff_prefix, ih, List.infix_cons_iff]

theorem not_infix_stripQuery {T s : List Char} (h : ¬ T <:+: s) :
    ¬ T <:+: stripQuery s :=
  fun hi => h (hi.trans (stripQuery_prefix_self s).isInfix)

theorem replaceTok_no_placeholder {s : List Char} (h : ¬ placeholderL <:+: s) :
    ¬ placeholderL <:+: replaceTok defaultRes s := by
  rcases replaceTok_cases defaultRes s with hfix | ⟨c, rest, n, heq, htok, hrw⟩
  · rw [hfix]
    exact h
  · obtain ⟨D1, D2, R3, hsh, hD1ne, hD2ne, hD1d, hD2d, hn⟩ := tryTok_shape htok
    have hdropn : rest.drop n = R3 := by
      rw [hsh]
      exact List.drop_left' (by rw [tokPat_length]; omega)
    rw [hrw, hdropn]
    have hs : s = c ++ (tokPat D1 D2 ++ R3) := by rw [heq, hsh]
    intro hinf
    obtain ⟨p, t, hpt⟩ := hinf
    have hTlen : placeholderL.length = 11 := rfl
    have hNlen : (newTok defaultRes).length = 14 := rfl
    by_cases h1 : p.length + 11 ≤ c.length
    · obtain ⟨w, hw⟩ := prefix_of_append_eq hpt (by simp [hTlen]; omega)
      apply h
      refine ⟨p, w ++ (tokPat D1 D2 ++ R3), ?_⟩
      rw [hs, ← hw]
      simp [List.append_assoc]
    · by_cases h2 : p.length + 11 ≤ c.length + 14
      · have heq2 : p ++ (placeholderL ++ t) = c ++ (newTok defaultRes ++ R3) := by
          rw [← List.append_assoc]
          exact hpt
        have hidxL : (p ++ (placeholderL ++ t))[p.length + 10]? =
            placeholderL[p.length + 10 - p.length]? :=
          getElem?_append_mid (by omega) (by omega)
        rw [heq2] at hidxL
        rw [getElem?_append_mid (by omega) (by omega)] at hidxL
        have h10 : p.length + 10 - p.length = 10 := by omega
        rw [h10] at hidxL
        have hr : placeholderL[(10 : ℕ)]? = some 'r' := rfl
        rw [hr] at hidxL
        have hmem : 'r' ∈ newTok defaultRes := List.getElem?_mem hidxL
        exact absurd hmem (by decide)
      · by_cases h3 : c.length + 14 ≤ p.length
        · have hpt2 : (c ++ newTok defaultRes) ++ R3 = p ++ (placeholderL ++ t) := by
            rw [List.append_assoc, ← hpt]
            simp [List.append_assoc]
          obtain ⟨w, hw⟩ := prefix_of_append_eq hpt2 (by simp [hNlen]; omega)
          have hR3 : R3 = w ++ (placeholderL ++ t) := by
            have h4 : (c ++ newTok defaultRes) ++ R3 =
                (c ++ newTok defaultRes) ++ (w ++ (placeholderL ++ t)) := by
              rw [hpt2, ← hw]
              simp [List.append_assoc]
            exact List.append_cancel_left h4
          apply h
          refine ⟨c ++ tokPat D1 D2 ++ w, t, ?_⟩
          rw [hs, hR3]
          simp [List.append_assoc]
        · push_neg at h1 h3
          have heq2 : p ++ (placeholderL ++ t) = c ++ (newTok defaultRes ++ R3) := by
            rw [← List.append_assoc]
            exact hpt
          have hBk : c.length ≤ p.length := by omega
          have hidxL : (p ++ (placeholderL ++ t))[p.length]? =
              placeholderL[p.length - p.length]? :=
            getElem?_append_mid (by omega) (by simp [hTlen])
          rw [heq2] at hidxL
          rw [getElem?_append_mid (by omega) (by omega)] at hidxL
          have h0 : p.length - p.length = 0 := by omega
          rw [h0] at hidxL
          have hp : placeholderL[(0 : ℕ)]? = some 'p' := rfl
          rw [hp] at hidxL
          have hmem : 'p' ∈ newTok defaultRes := List.getElem?_mem hidxL
          exact absurd hmem (by decide)

theorem processUrl_no_placeholder {s : List Char} (h : ¬ placeholderL <:+: s) :
    ¬ placeholderL <:+: processUrl defaultRes s :=
  replaceTok_no_placeholder (not_infix_stripQuery h)

theorem processAltNode_some {res : List Char} {nd : ImgNode} {u : List Char}
    (h : processAltNode res nd = some u) :
    ∃ s, s ≠ [] ∧ ¬ listContains s placeholderL ∧ u = processUrl res s := by
  unfold processAltNode at h
  split at h
  case h_2 => exact absurd h (by simp)
  case h_1 =>
    rename_i s heq2
    split at h
    case isTrue hcond => exact ⟨s, hcond.1, hcond.2, (Option.some.inj h).symm⟩
    case isFalse => exact absurd h (by simp)
/-- Counterexample to claim C1 as stated: in the primary gallery tier no
placeholder filtering happens, so a gallery whose image source contains
"placeholder" puts that source into the returned images sequence. -/
theorem primary_tier_keeps_placeholder :
    "https://z/placeholder1.png".data ∈ extractImages defaultRes placeholderGalleryDoc ∧
    placeholderL <:+: "https://z/placeholder1.png".data := by decide

/-- Claim C1 as amended: the "placeholder" exclusion applies only to the
alternate fallback tier; whenever the primary gallery tier yields zero
images, no element of the returned images sequence contains the literal
substring "placeholder". The primary tier itself performs no such
exclusion. -/
theorem alt_tier_excludes_placeholder :
    ∀ d : Doc, primaryImages defaultRes d = [] →
      ∀ u ∈ extractImages defaultRes d, ¬ placeholderL <:+: u := by
  intro d hprim u hu
  have hu1 : u ∈ altImages defaultRes d := by
    rw [extractImages] at hu
    simp only [hprim, if_pos] at hu
    exact (mem_dedupFirstAux.mp hu).1
  unfold altImages at hu1
  split at hu1
  case h_2 => exact absurd hu1 (by simp)
  case h_1 =>
    obtain ⟨nd, hnd, hproc⟩ := List.mem_filterMap.mp hu1
    obtain ⟨s, hsne, hnc, rfl⟩ := processAltNode_some hproc
    have hninf : ¬ placeholderL <:+: s := fun hinf => hnc ((listContains_iff s placeholderL).mpr hinf)
    exact processUrl_no_placeholder hninf

/-- Witness for the amended C1 at a concrete document. -/
theorem alt_tier_excludes_placeholder_witness :
    primaryImages defaultRes altPlaceholderDoc = [] ∧
    ¬ placeholderL <:+: "https://ok/image/832/832/a.png".data :=
  ⟨by decide,
   alt_tier_excludes_placeholder altPlaceholderDoc (by decide)
     "https://ok/image/832/832/a.png".data (by decide)⟩
theorem sanity_check_19 : parsePrice notFound = 0 := by decide
theorem sanity_check_20 : firstDecimal "4.3 out of 5".data = some "4.3".data := by decide
theorem sanity_check_21 : parseReviewsCount "12,345 Reviews".data = 12345 := by decide
theorem sanity_check_22 : extractBrand "Samsung Galaxy S21 Ultra (Phantom Black, 128 GB)".data = "Samsung".data := by decide
theorem sanity_check_23 : extractBrand "".data = "Unknown".data := by decide
theorem sanity_check_24 : extractBrand "Obscuretronic Widget".data = "Obscuretronic".data := by decide
theorem sanity_check_25 : jsRound ((24999 : ℚ) * (17 / 20)) = 21249 := by norm_num [jsRound]

end FlipkartPanel
